import Mathlib

/-!
Verification of the OpenJ9 `TreeLowering` optimization pass
(`runtime/compiler/optimizer/TreeLowering.cpp`).

The development shallowly embeds the IL trees, basic blocks and the lowering
pass.  IL nodes are modelled as finite trees; C++ pointer sharing ("commoning")
is modelled by structural equality (mutating a shared node corresponds to
replacing every structurally identical occurrence), and reference counts are
modelled explicitly where a claim depends on them (the register-dependency
copier).  Block splitting helpers that live outside this repository
(`OMR::Block::splitPostGRA`, `OMR::Block::split`) are modelled from the spec,
as marked in their doc comments.
-/

namespace TL

/-- IL opcodes used by the tree-lowering pass (TreeLowering.cpp).  Opcodes not
appearing in this file are represented by `other`. -/
inductive ILOp where
  | treetop | icall | iRegStore | istore | iRegLoad | iload
  | iconst | aconst | ifacmpeq | ificmpeq
  | aload | aloadi | iloadi | iand
  | PassThrough | GlRegDeps | NULLCHK | ArrayStoreCHK
  | astorei | aladd
  | other (code : Nat)
  deriving DecidableEq, Repr

/-- `TR::ILOpCode::isCall()`, restricted to the opcodes modelled here: the
only call opcode appearing in the lowering is `icall`. -/
def ILOp.isCall : ILOp → Bool
  | .icall => true
  | _ => false

/-- Symbol references looked up through the symbol-reference table in
TreeLowering.cpp.  `temp` stands for an auto slot created by un-commoning. -/
inductive SymRef where
  | objectEqualityComparison | acmpHelper | vft | classFlags
  | arrayComponentType | nullCheck
  | temp (slot : Nat) | generic (id : Nat)
  deriving DecidableEq, Repr

/-- An IL node: opcode, optional symbol reference, optional global register
number (the low/high pair of `TR::Node` is collapsed to a single register id),
integer constant payload, optional branch destination (a block number), the
`isNonNull` flag, and the ordered children.  Sharing by reference in the C++
IL is modelled by structural equality of subtrees. -/
inductive Node where
  | mk (op : ILOp) (sym : Option SymRef) (reg : Option Nat) (ival : Int)
       (dest : Option Nat) (nonNull : Bool) (kids : List Node)

def Node.op : Node → ILOp
  | .mk o _ _ _ _ _ _ => o

def Node.sym : Node → Option SymRef
  | .mk _ s _ _ _ _ _ => s

def Node.reg : Node → Option Nat
  | .mk _ _ r _ _ _ _ => r

def Node.ival : Node → Int
  | .mk _ _ _ v _ _ _ => v

def Node.dest : Node → Option Nat
  | .mk _ _ _ _ d _ _ => d

def Node.nonNull : Node → Bool
  | .mk _ _ _ _ _ nn _ => nn

def Node.kids : Node → List Node
  | .mk _ _ _ _ _ _ ks => ks

@[simp] theorem Node.op_mk (o : ILOp) (s : Option SymRef) (r : Option Nat)
    (v : Int) (d : Option Nat) (nn : Bool) (ks : List Node) :
    (Node.mk o s r v d nn ks).op = o := rfl

@[simp] theorem Node.sym_mk (o : ILOp) (s : Option SymRef) (r : Option Nat)
    (v : Int) (d : Option Nat) (nn : Bool) (ks : List Node) :
    (Node.mk o s r v d nn ks).sym = s := rfl

@[simp] theorem Node.reg_mk (o : ILOp) (s : Option SymRef) (r : Option Nat)
    (v : Int) (d : Option Nat) (nn : Bool) (ks : List Node) :
    (Node.mk o s r v d nn ks).reg = r := rfl

@[simp] theorem Node.ival_mk (o : ILOp) (s : Option SymRef) (r : Option Nat)
    (v : Int) (d : Option Nat) (nn : Bool) (ks : List Node) :
    (Node.mk o s r v d nn ks).ival = v := rfl

@[simp] theorem Node.dest_mk (o : ILOp) (s : Option SymRef) (r : Option Nat)
    (v : Int) (d : Option Nat) (nn : Bool) (ks : List Node) :
    (Node.mk o s r v d nn ks).dest = d := rfl

@[simp] theorem Node.nonNull_mk (o : ILOp) (s : Option SymRef) (r : Option Nat)
    (v : Int) (d : Option Nat) (nn : Bool) (ks : List Node) :
    (Node.mk o s r v d nn ks).nonNull = nn := rfl

@[simp] theorem Node.kids_mk (o : ILOp) (s : Option SymRef) (r : Option Nat)
    (v : Int) (d : Option Nat) (nn : Bool) (ks : List Node) :
    (Node.mk o s r v d nn ks).kids = ks := rfl

mutual

/-- Structural (boolean) equality of nodes; stands for pointer equality of the
shared C++ nodes. -/
def Node.beq : Node → Node → Bool
  | .mk o1 s1 r1 v1 d1 n1 k1, .mk o2 s2 r2 v2 d2 n2 k2 =>
    decide (o1 = o2) && decide (s1 = s2) && decide (r1 = r2) && decide (v1 = v2)
      && decide (d1 = d2) && decide (n1 = n2) && Node.beqList k1 k2

/-- Pointwise `Node.beq` on child lists. -/
def Node.beqList : List Node → List Node → Bool
  | [], [] => true
  | a :: as, b :: bs => Node.beq a b && Node.beqList as bs
  | _, _ => false

end

/-- Induction over `Node` providing the hypothesis for all children. -/
theorem Node.inductionOn (P : Node → Prop)
    (h : ∀ o s r v d nn ks, (∀ k ∈ ks, P k) → P (.mk o s r v d nn ks)) :
    ∀ n, P n :=
  fun n =>
    Node.rec (motive_1 := P) (motive_2 := fun ks => ∀ k ∈ ks, P k)
      (fun o s r v d nn ks ih => h o s r v d nn ks ih)
      (fun k hk => absurd hk (List.not_mem_nil k))
      (fun a as iha ihas k hk => by
        rcases List.mem_cons.mp hk with rfl | h2
        · exact iha
        · exact ihas k h2) n

theorem Node.beqList_iff_eq (ks ls : List Node)
    (ih : ∀ k ∈ ks, ∀ b, (Node.beq k b = true) ↔ k = b) :
    (Node.beqList ks ls = true) ↔ ks = ls := by
  induction ks generalizing ls with
  | nil => cases ls <;> simp [Node.beqList]
  | cons a as ihs =>
    cases ls with
    | nil => simp [Node.beqList]
    | cons b bs =>
      have ha := ih a (List.mem_cons_self a as) b
      have hrest := ihs bs (fun k hk => ih k (List.mem_cons_of_mem a hk))
      simp only [Node.beqList, Bool.and_eq_true, ha, hrest, List.cons.injEq]

theorem Node.beq_iff_eq : ∀ (a b : Node), (Node.beq a b = true) ↔ a = b := by
  intro a
  induction a using Node.inductionOn with
  | _ o s r v d nn ks ih =>
    intro b
    cases b with
    | mk o2 s2 r2 v2 d2 n2 k2 =>
      simp only [Node.beq, Bool.and_eq_true, decide_eq_true_eq,
        Node.beqList_iff_eq ks k2 ih, Node.mk.injEq]
      tauto

instance : DecidableEq Node :=
  fun a b => decidable_of_iff _ (Node.beq_iff_eq a b)

/-- The default node, used only to totalize child accessors. -/
def defaultNode : Node := .mk (.other 0) none none 0 none false []

/-- `TR::Node::getFirstChild()`. -/
def Node.firstChild (n : Node) : Node := n.kids.headD defaultNode

/-- `TR::Node::getSecondChild()`. -/
def Node.secondChild (n : Node) : Node := n.kids.getD 1 defaultNode

/-- `TR::Node::getChild(2)`. -/
def Node.childAt2 (n : Node) : Node := n.kids.getD 2 defaultNode

/-- `TR::Node::create(TR::treetop, 1, n)`: a treetop node anchoring `n`. -/
def treetop1 (n : Node) : Node := .mk .treetop none none 0 none false [n]

/-- `TR::Node::iconst(v)`. -/
def iconstN (v : Int) : Node := .mk .iconst none none v none false []

/-- `TR::Node::aconst(v)`. -/
def aconstN (v : Int) : Node := .mk .aconst none none v none false []

/-- `TR::Node::createif(op, c1, c2, destination)`: a branch node; the branch
destination is a block number. -/
def createif (op : ILOp) (c1 c2 : Node) (destBlock : Option Nat) : Node :=
  .mk op none none 0 destBlock false [c1, c2]

/-- `TR::Node::createWithSymRef(op, 1, child, symRef)`. -/
def loadiN (op : ILOp) (sr : SymRef) (child : Node) : Node :=
  .mk op (some sr) none 0 none false [child]

/-- `TR::Node::create(node, TR::iand, 2, a, b)`. -/
def iandN (a b : Node) : Node := .mk .iand none none 0 none false [a, b]

/-- `TR::Node::create(TR::iRegStore, 1, child)` with a global register number. -/
def iRegStoreN (r : Nat) (child : Node) : Node :=
  .mk .iRegStore none (some r) 0 none false [child]

/-- `TR::Node::create(TR::istore, 1, child)` with a symbol reference. -/
def istoreN (sr : SymRef) (child : Node) : Node :=
  .mk .istore (some sr) none 0 none false [child]

/-- An `iRegLoad` of a global register. -/
def iRegLoadN (r : Nat) : Node := .mk .iRegLoad none (some r) 0 none false []

/-- An `iload` of a symbol (auto slot). -/
def iloadN (sr : SymRef) : Node := .mk .iload (some sr) none 0 none false []

/-- A `PassThrough` node for a global register wrapping `child`. -/
def passThroughN (r : Option Nat) (child : Node) : Node :=
  .mk .PassThrough none r 0 none false [child]

/-- A `GlRegDeps` node. -/
def glRegDepsN (ks : List Node) : Node := .mk .GlRegDeps none none 0 none false ks

/-- Append one child to a node (`TR::Node::addChildren(&c, 1)`). -/
def Node.addKid (n : Node) (c : Node) : Node :=
  match n with
  | .mk o s r v d nn ks => .mk o s r v d nn (ks ++ [c])

/-- `node->setSymbolReference(sr)`. -/
def Node.withSym (n : Node) (sr : SymRef) : Node :=
  match n with
  | .mk o _ r v d nn ks => .mk o (some sr) r v d nn ks

/-- `storeNode->getFirstChild()->setInt(0)` after `duplicateTree`: duplicate
the tree and overwrite the integer payload of the first child. -/
def Node.dupWithFirstChildInt (n : Node) (v : Int) : Node :=
  match n with
  | .mk o s r vv d nn [] => .mk o s r vv d nn []
  | .mk o s r vv d nn (c :: rest) =>
    match c with
    | .mk co cs cr _ cd cnn cks => .mk o s r vv d nn (.mk co cs cr v cd cnn cks :: rest)

mutual

/-- Replace, in the whole of `t`, every occurrence of the (shared) node `old`
by `new`.  This models an in-place mutation of `old`, which is visible through
every reference to it, as well as un-commoning, which redirects references. -/
def replaceNode (old new : Node) (t : Node) : Node :=
  if t = old then new
  else match t with
    | .mk o s r v d nn ks => .mk o s r v d nn (replaceNodeList old new ks)

/-- `replaceNode` on every node of a list. -/
def replaceNodeList (old new : Node) : List Node → List Node
  | [] => []
  | k :: ks => replaceNode old new k :: replaceNodeList old new ks

end

/-- The `J9ClassIsValueType` class-flag bit.  Modelled from the spec: the
runtime's class layout is consumed only as a single bit-flag query, so the
flag is a fixed one-bit constant. -/
def J9ClassIsValueType : Int := 512

/-- A basic block: its number, the treetops strictly between its `BBStart`
and `BBEnd` markers, the "is extension of previous block" flag, and the
`GlRegDeps` node attached to its `BBEnd` (if any). -/
structure Block where
  num : Nat
  tts : List Node
  isExt : Bool
  exitDeps : Option Node
  deriving DecidableEq

/-- Default block, used only to totalize list accessors in theorem
statements. -/
def defaultBlock : Block := { num := 0, tts := [], isExt := false, exitDeps := none }

/-- Fatal compilation aborts (`TR_ASSERT_FATAL_WITH_NODE`). -/
inductive Fatal where
  | assertFatal (msg : String)
  deriving DecidableEq, Repr

/-! ## moveNodeToEndOfBlock (TreeLowering.cpp lines 60-105) -/

/-- Does the treetop `t` hold a store of the result of `node`?  This is the
condition of TreeLowering.cpp line 84: the opcode is `iRegStore` or `istore`
and the first child is (pointer-)equal to `node`. -/
def isResultStoreOf (node t : Node) : Bool :=
  (decide (t.op = ILOp.iRegStore) || decide (t.op = ILOp.istore)) &&
    decide (t.kids.head? = some node)

/-- The gathering loop of `moveNodeToEndOfBlock` (lines 79-98): walk the
treetops after `tt`; stores of `node`'s result are unlinked and joined onto
the gathered chain, the rest stay in place.  Returns
(treetops left in place, gathered store chain). -/
def gatherResultStores (node : Node) : List Node → List Node × List Node
  | [] => ([], [])
  | t :: rest =>
    let (kept, gathered) := gatherResultStores node rest
    if isResultStoreOf node t then (kept, t :: gathered) else (t :: kept, gathered)

/-- `TR::TreeLowering::moveNodeToEndOfBlock` on a block whose treetops are
`pre ++ [tt] ++ post`: if `tt` is already last (its successor is the block
exit) nothing happens; otherwise `tt` and the stores of `node`'s result are
relinked at the end of the block.  Returns the treetops before and after `tt`
in the resulting block. -/
def moveNodeToEndOfBlock (pre : List Node) (tt : Node) (post : List Node)
    (node : Node) : List Node × List Node :=
  if post.isEmpty then (pre, post)
  else
    let (kept, gathered) := gatherResultStores node post
    (pre ++ kept, gathered)

/-! ## Register-dependency copying with reference counts
(`copyExitRegDepsAndSubstitue`, TreeLowering.cpp lines 159-187).

For the claims about use counts, register dependencies are modelled with node
identities and explicit reference-count effects. -/

/-- A register-dependency entry under a `GlRegDeps` node: the node's identity
(standing for its address), whether its opcode is `PassThrough`, its low and
high global register numbers, and the identity of its first child if it has
one. -/
structure RegDepEntry where
  id : Nat
  isPassThrough : Bool
  lowReg : Int
  highReg : Int
  child : Option Nat
  deriving DecidableEq, Repr

/-- How a dependency is installed into the target `GlRegDeps`:
`byRef n` is `setAndIncChild` of the existing node `n` (install by reference,
incrementing its use count); `freshCopy e` is `TR::Node::copy` of the
passthrough entry `e` — a fresh node with reference count 1 whose wrapped
child (if any) gets its use count incremented. -/
inductive InstalledDep where
  | byRef (n : RegDepEntry)
  | freshCopy (orig : RegDepEntry)
  deriving DecidableEq, Repr

/-- `copyExitRegDepsAndSubstitue` (sic, lines 159-187): for every child of the
source `GlRegDeps`, install the substitute if it names the same register pair,
else a fresh copy if the child is a `PassThrough`, else the child itself by
reference. -/
def copyExitRegDepsAndSubstitue (source : List RegDepEntry)
    (substituteNode : Option RegDepEntry) : List InstalledDep :=
  source.map fun child =>
    match substituteNode with
    | some s =>
      if decide (child.lowReg = s.lowReg) && decide (child.highReg = s.highReg) then
        .byRef s
      else if child.isPassThrough then
        .freshCopy child
      else
        .byRef child
    | none =>
      if child.isPassThrough then .freshCopy child else .byRef child

/-- Restatement of the per-entry installation rule in the words of the
specification (section 4.2): substitute on a register match, duplicate a
passthrough, carry everything else by reference.  Used to compare the code
against the spec. -/
def specInstallRule (substituteNode : Option RegDepEntry) (child : RegDepEntry) :
    InstalledDep :=
  match substituteNode with
  | some s =>
    if child.lowReg = s.lowReg ∧ child.highReg = s.highReg then .byRef s
    else if child.isPassThrough then .freshCopy child
    else .byRef child
  | none => if child.isPassThrough then .freshCopy child else .byRef child

/-! ## Tree-level register-dependency copying for branch creation -/

/-- Tree-level view of `copyExitRegDepsAndSubstitue` used when building the
`GlRegDeps` of a new branch: a child naming the substitute's register is
replaced by the substitute.  A `PassThrough` child is rebuilt by
`TR::Node::copy` with its child commoned, and every other child is commoned
directly; both produce a tree structurally identical to the child, so at tree
level the child is kept (the reference-count distinction is captured by
`copyExitRegDepsAndSubstitue` above). -/
def copyExitRegDepsKids (kids : List Node) (substituteNode : Option Node) :
    List Node :=
  kids.map fun child =>
    match substituteNode with
    | some s => if child.reg = s.reg then s else child
    | none => child

/-- `copyBranchGlRegDepsAndSubstitute` (lines 208-219): if the source
`GlRegDeps` is present, create a new `GlRegDeps` holding the copied
dependencies, attach it to the branch node, and return the updated branch
together with the new `GlRegDeps`; otherwise the branch is unchanged and
`none` is returned. -/
def copyBranchGlRegDepsAndSubstitute (branchNode : Node)
    (sourceGlRegDeps : Option Node) (substituteNode : Option Node) :
    Node × Option Node :=
  match sourceGlRegDeps with
  | none => (branchNode, none)
  | some src =>
    let glRegDepsCopy := glRegDepsN (copyExitRegDepsKids src.kids substituteNode)
    (branchNode.addKid glRegDepsCopy, some glRegDepsCopy)

/-! ## splitPostGRA outcome (external to this repository) -/

/-- Modelled from the spec: the outcome of `OMR::Block::splitPostGRA`'s
un-commoning for the anchored helper call — the anchored reference to the
call is rewritten into a load of the location that now holds the call's
result (a global register or a temp slot), and a store of the call into that
location is appended to the original block.  `unexpected n` stands for any
other transformation of the anchored node (the case the fatal assertion in
`fastpathAcmpHelper` guards against). -/
inductive SplitOutcome where
  | globalReg (r : Nat)
  | tempSlot (slot : Nat)
  | unexpected (n : Node)
  deriving DecidableEq

/-- The node the anchored call has been transformed into by `splitPostGRA`. -/
def outcomeResultNode : SplitOutcome → Node
  | .globalReg r => iRegLoadN r
  | .tempSlot s => iloadN (.temp s)
  | .unexpected n => n

/-- Modelled from the spec: the store treetops appended to the original block
by `splitPostGRA`'s un-commoning of the helper call `node`. -/
def outcomeStores (o : SplitOutcome) (node : Node) : List Node :=
  match o with
  | .globalReg r => [iRegStoreN r node]
  | .tempSlot s => [istoreN (.temp s) node]
  | .unexpected _ => []

/-! ## fastpathAcmpHelper (TreeLowering.cpp lines 355-515)

The transformation is a sequence of seven steps, each guarded by a
`performTransformation` gate (lines 362, 384, 397, 456, 480, 490, 505); a
vetoed gate returns from the function.  The evolving region of the method
body — the fast-path blocks already split off, the current call block around
the call treetop, and the merge block — is carried in `AcmpState`. -/

/-- The inputs of one `fastpathAcmpHelper` invocation: the treetops of the
enclosing block before (`pre`) and after (`post`) the call treetop `ttNode`,
the helper-call node itself, the enclosing block's number, extension flag and
`BBEnd` `GlRegDeps`, the `splitPostGRA` outcome (which location receives the
call result, and which `GlRegDeps` the split leaves on the call block's new
`BBEnd`), and the next free block number. -/
structure AcmpCtx where
  pre : List Node
  ttNode : Node
  node : Node
  post : List Node
  blockNum : Nat
  blockExt : Bool
  origDeps : Option Node
  splitDeps : Option Node
  outcome : SplitOutcome
  nextNum : Nat

/-- The evolving state of `fastpathAcmpHelper`: treetops before the call in
the current call block, the anchored call treetop while it is still in the
call block, the node the anchor was transformed into, the local variables
`storeNode`, `regDepForStoreNode` and `exitGlRegDeps`, the fast-path blocks
already split off, the current call block's number and extension flag, the
un-commoning stores after the call, the merge block's number once split, the
explicitly added CFG edges, and the next free block number. -/
structure AcmpState where
  preTTs : List Node
  anchoredTT : Option Node
  anchoredResult : Node
  storeNode : Node
  regDepForStoreNode : Option Node
  exitGlRegDeps : Option Node
  chain : List Block
  callNum : Nat
  callExt : Bool
  uncStores : List Node
  mergeNum : Option Nat
  edges : List (Nat × Nat)
  nextNum : Nat

/-- The state at entry of `fastpathAcmpHelper`. -/
def initAcmpState (ctx : AcmpCtx) : AcmpState :=
  { preTTs := ctx.pre, anchoredTT := none, anchoredResult := defaultNode,
    storeNode := defaultNode, regDepForStoreNode := none, exitGlRegDeps := none,
    chain := [], callNum := ctx.blockNum, callExt := ctx.blockExt,
    uncStores := [], mergeNum := none, edges := [], nextNum := ctx.nextNum }

/-- The anchored-call treetop as it appears in the merge block after
`splitPostGRA`'s un-commoning. -/
def mergeAnchoredTT (ctx : AcmpCtx) : Node :=
  treetop1 (outcomeResultNode ctx.outcome)

/-- The remaining treetops of the merge block: the treetops after the call,
with every reference to the call redirected to the result load by
un-commoning. -/
def mergeRest (ctx : AcmpCtx) : List Node :=
  ctx.post.map (replaceNode ctx.node (outcomeResultNode ctx.outcome))

/-- `TR::TreeLowering::splitForFastpath` (lines 221-229) in terms of the
state: the treetops before the call (ending in the just-inserted branch)
become a finished block, the new fall-through block holding the call is
marked as an extension, and a CFG edge to the target block is added. -/
def splitForFastpathStep (targetNum : Nat) (st : AcmpState) : AcmpState :=
  { st with
    chain := st.chain ++
      [{ num := st.callNum, tts := st.preTTs, isExt := st.callExt, exitDeps := none }],
    edges := st.edges ++ [(st.callNum, targetNum)],
    callNum := st.nextNum,
    nextNum := st.nextNum + 1,
    callExt := true,
    preTTs := [] }

/-- Step 1 (lines 362-379): anchor the call under a treetop right after the
call treetop, and anchor both call arguments right before it. -/
def acmpStepAnchor (ctx : AcmpCtx) (st : AcmpState) : Except Fatal AcmpState :=
  .ok { st with
    anchoredTT := some (treetop1 ctx.node),
    preTTs := st.preTTs ++
      [treetop1 ctx.node.firstChild, treetop1 ctx.node.secondChild] }

/-- Step 2 (lines 384-395): `splitPostGRA` after the call treetop, creating
the merge block, then `moveNodeToEndOfBlock` to gather the call and the
un-commoning stores of its result at the end of the call block. -/
def acmpStepSplit (ctx : AcmpCtx) (st : AcmpState) : Except Fatal AcmpState :=
  let st := { st with
    anchoredTT := none,
    anchoredResult := outcomeResultNode ctx.outcome,
    uncStores := outcomeStores ctx.outcome ctx.node,
    mergeNum := some st.nextNum,
    nextNum := st.nextNum + 1 }
  let moved := moveNodeToEndOfBlock st.preTTs ctx.ttNode st.uncStores ctx.node
  .ok { st with preTTs := moved.1, uncStores := moved.2 }

/-- Step 3 (lines 397-454): build the store of constant 1 into the location
of the call's result (aborting fatally if the anchored call was transformed
into anything but `iRegLoad` or `iload`), insert it before the call, then
insert the `lhs == rhs` fast-path branch with copied register dependencies
and split the call block. -/
def acmpStepCmpFastpath (ctx : AcmpCtx) (st : AcmpState) : Except Fatal AcmpState :=
  let anchoredNode := st.anchoredResult
  let const1Node := iconstN 1
  let made : Except Fatal (Node × Option Node) :=
    if anchoredNode.op = ILOp.iRegLoad then
      .ok (Node.mk .iRegStore none anchoredNode.reg 0 none false [const1Node],
           some (passThroughN anchoredNode.reg const1Node))
    else if anchoredNode.op = ILOp.iload then
      .ok (Node.mk .istore anchoredNode.sym none 0 none false [const1Node], none)
    else
      .error (.assertFatal "Anchored call has been turned into unexpected opcode")
  match made with
  | .error e => .error e
  | .ok (storeNode, regDepForStoreNode) =>
    let st := { st with
      storeNode := storeNode,
      regDepForStoreNode := regDepForStoreNode,
      preTTs := st.preTTs ++ [storeNode],
      exitGlRegDeps := ctx.splitDeps }
    let ifacmpeqNode :=
      createif .ifacmpeq ctx.node.firstChild ctx.node.secondChild st.mergeNum
    let copied :=
      copyBranchGlRegDepsAndSubstitute ifacmpeqNode st.exitGlRegDeps regDepForStoreNode
    let st := { st with
      exitGlRegDeps := copied.2,
      preTTs := st.preTTs ++ [copied.1] }
    .ok (splitForFastpathStep (st.mergeNum.getD 0) st)

/-- Step 4 (lines 456-478): duplicate the store with constant 0, duplicate
the corresponding register dependency, insert the `lhs == NULL` branch and
split. -/
def acmpStepLhsNull (ctx : AcmpCtx) (st : AcmpState) : Except Fatal AcmpState :=
  let storeNode := st.storeNode.dupWithFirstChildInt 0
  let st := { st with
    storeNode := storeNode,
    preTTs := st.preTTs ++ [storeNode] }
  let regDepForStoreNode :=
    match st.regDepForStoreNode with
    | none => none
    | some rd => some (passThroughN rd.reg storeNode.firstChild)
  let nullConst := aconstN 0
  let checkLhsNull := createif .ifacmpeq ctx.node.firstChild nullConst st.mergeNum
  let copied :=
    copyBranchGlRegDepsAndSubstitute checkLhsNull st.exitGlRegDeps regDepForStoreNode
  let st := { st with
    regDepForStoreNode := regDepForStoreNode,
    exitGlRegDeps := copied.2,
    preTTs := st.preTTs ++ [copied.1] }
  .ok (splitForFastpathStep (st.mergeNum.getD 0) st)

/-- Step 5 (lines 480-488): insert the `rhs == NULL` branch (no further
substitution; the reference `GlRegDeps` is not rebound) and split. -/
def acmpStepRhsNull (ctx : AcmpCtx) (st : AcmpState) : Except Fatal AcmpState :=
  let nullConst := aconstN 0
  let checkRhsNull := createif .ifacmpeq ctx.node.secondChild nullConst st.mergeNum
  let copied := copyBranchGlRegDepsAndSubstitute checkRhsNull st.exitGlRegDeps none
  let st := { st with preTTs := st.preTTs ++ [copied.1] }
  .ok (splitForFastpathStep (st.mergeNum.getD 0) st)

/-- Step 6 (lines 490-503): insert the branch testing whether `lhs`'s class
has the `J9ClassIsValueType` flag clear — `ificmpeq` comparing
`lhs->class->flags & J9ClassIsValueType` with the constant-0 child of the
store — and split. -/
def acmpStepLhsVT (ctx : AcmpCtx) (st : AcmpState) : Except Fatal AcmpState :=
  let j9ClassIsVTFlag := iconstN J9ClassIsValueType
  let lhsVft := loadiN .aloadi .vft ctx.node.firstChild
  let lhsClassFlags := loadiN .iloadi .classFlags lhsVft
  let isLhsValueType := iandN lhsClassFlags j9ClassIsVTFlag
  let checkLhsIsVT :=
    createif .ificmpeq isLhsValueType st.storeNode.firstChild st.mergeNum
  let copied := copyBranchGlRegDepsAndSubstitute checkLhsIsVT st.exitGlRegDeps none
  let st := { st with preTTs := st.preTTs ++ [copied.1] }
  .ok (splitForFastpathStep (st.mergeNum.getD 0) st)

/-- Step 7 (lines 505-514): the same check for `rhs`'s class, then the final
split leaving the call in its own block. -/
def acmpStepRhsVT (ctx : AcmpCtx) (st : AcmpState) : Except Fatal AcmpState :=
  let j9ClassIsVTFlag := iconstN J9ClassIsValueType
  let rhsVft := loadiN .aloadi .vft ctx.node.secondChild
  let rhsClassFlags := loadiN .iloadi .classFlags rhsVft
  let isRhsValueType := iandN rhsClassFlags j9ClassIsVTFlag
  let checkRhsIsVT :=
    createif .ificmpeq isRhsValueType st.storeNode.firstChild st.mergeNum
  let copied := copyBranchGlRegDepsAndSubstitute checkRhsIsVT st.exitGlRegDeps none
  let st := { st with preTTs := st.preTTs ++ [copied.1] }
  .ok (splitForFastpathStep (st.mergeNum.getD 0) st)

/-- The seven gated steps of `fastpathAcmpHelper`, in source order. -/
def acmpSteps (ctx : AcmpCtx) : List (AcmpState → Except Fatal AcmpState) :=
  [acmpStepAnchor ctx, acmpStepSplit ctx, acmpStepCmpFastpath ctx,
   acmpStepLhsNull ctx, acmpStepRhsNull ctx, acmpStepLhsVT ctx,
   acmpStepRhsVT ctx]

/-- Run steps, each guarded by its `performTransformation` gate; a vetoed
gate returns the state built so far (the early `return`s of
`fastpathAcmpHelper`). -/
def runGated : List Bool → List (AcmpState → Except Fatal AcmpState) →
    AcmpState → Except Fatal AcmpState
  | g :: gs, f :: fs, s =>
    if g then
      match f s with
      | .error e => .error e
      | .ok s2 => runGated gs fs s2
    else .ok s
  | _, _, s => .ok s

/-- Run steps unconditionally (used to state what a veto leaves behind). -/
def runSteps : List (AcmpState → Except Fatal AcmpState) → AcmpState →
    Except Fatal AcmpState
  | [], s => .ok s
  | f :: fs, s =>
    match f s with
    | .error e => .error e
    | .ok s2 => runSteps fs s2

/-- `TR::TreeLowering::fastpathAcmpHelper` (lines 355-515). -/
def fastpathAcmpHelper (gates : List Bool) (ctx : AcmpCtx) :
    Except Fatal AcmpState :=
  runGated gates (acmpSteps ctx) (initAcmpState ctx)

/-- All seven gates answering yes. -/
def gatesAllTrue : List Bool := [true, true, true, true, true, true, true]

/-- Reassemble the region of the method body edited by `fastpathAcmpHelper`
from its final state: the fast-path chain, the call block, and the merge
block (when the split has happened). -/
def finalizeAcmp (ctx : AcmpCtx) (st : AcmpState) : List Block :=
  match st.mergeNum with
  | none =>
    [{ num := st.callNum,
       tts := st.preTTs ++ ctx.ttNode :: (st.anchoredTT.toList ++ ctx.post),
       isExt := st.callExt, exitDeps := ctx.origDeps }]
  | some m =>
    st.chain ++
    [{ num := st.callNum, tts := st.preTTs ++ ctx.ttNode :: st.uncStores,
       isExt := st.callExt, exitDeps := ctx.splitDeps },
     { num := m, tts := mergeAnchoredTT ctx :: mergeRest ctx,
       isExt := false, exitDeps := ctx.origDeps }]

/-- The blocks produced by an un-vetoed run of `fastpathAcmpHelper`. -/
def acmpLoweredBlocks (ctx : AcmpCtx) : List Block :=
  match fastpathAcmpHelper gatesAllTrue ctx with
  | .ok st => finalizeAcmp ctx st
  | .error _ => []

/-! ## Evaluation semantics for the inserted branches -/

/-- An evaluation environment: the runtime value of reference expressions and
of opaque integer expressions, the class of an object, the component class of
an array class, and a class's flags word. -/
structure EvalEnv where
  addrOf : Node → Int
  intOf : Node → Int
  classOf : Int → Int
  componentClassOf : Int → Int
  flagsOf : Int → Int

/-- Value of an address-typed expression: constants evaluate to their
payload, a `vft` load yields the object's class, an `arrayComponentType` load
yields the class's component class, and everything else is given by the
environment. -/
def evalA (env : EvalEnv) : Node → Int
  | .mk .aconst _ _ v _ _ _ => v
  | .mk .aloadi (some .vft) _ _ _ _ [b] => env.classOf (evalA env b)
  | .mk .aloadi (some .arrayComponentType) _ _ _ _ [b] =>
    env.componentClassOf (evalA env b)
  | n => env.addrOf n

/-- Value of an integer-typed expression: constants evaluate to their
payload, a `classFlags` load yields the class's flags word, `iand` is bitwise
and, and everything else is given by the environment. -/
def evalI (env : EvalEnv) : Node → Int
  | .mk .iconst _ _ v _ _ _ => v
  | .mk .iloadi (some .classFlags) _ _ _ _ [b] => env.flagsOf (evalA env b)
  | .mk .iand _ _ _ _ _ [a, b] => Int.land (evalI env a) (evalI env b)
  | n => env.intOf n

/-- Where a branch node transfers control: its destination block if the
comparison holds, `none` (fall through) otherwise. -/
def branchTakenTo (env : EvalEnv) (n : Node) : Option Nat :=
  match n with
  | .mk .ifacmpeq _ _ _ d _ (a :: b :: _) =>
    if evalA env a = evalA env b then d else none
  | .mk .ificmpeq _ _ _ d _ (a :: b :: _) =>
    if evalI env a = evalI env b then d else none
  | _ => none

/-- The "is value-kind class" bit query: the class's flags word has the
`J9ClassIsValueType` bit set. -/
def isValueKindClass (env : EvalEnv) (c : Int) : Bool :=
  decide (Int.land (env.flagsOf c) J9ClassIsValueType ≠ 0)

/-! ## lowerArrayStoreCHK (TreeLowering.cpp lines 517-655) -/

/-- The body of the `GlRegDeps` copy loop for the `ificmpeq` (lines 625-637):
a `PassThrough` dependency is rebuilt with `TR::Node::create` (fresh node,
same child, same register numbers); every other dependency is reused
directly. -/
def copyDepsForIfChild (regDep : Node) : Node :=
  if regDep.op = ILOp.PassThrough then passThroughN regDep.reg regDep.firstChild
  else regDep

/-- Lines 620-641: if the split block's exit carries a `GlRegDeps`, attach to
the `ificmpeq` a new `GlRegDeps` built by the copy loop. -/
def addIfDeps (ifNode : Node) (blkDeps : Option Node) : Node :=
  match blkDeps with
  | none => ifNode
  | some deps => ifNode.addKid (glRegDepsN (deps.kids.map copyDepsForIfChild))

/-- The inputs of one `lowerArrayStoreCHK` invocation: the treetops of the
enclosing block before the check treetop, the `ArrayStoreCHK` node, its
treetop, the enclosing block's number, extension flag and exit `GlRegDeps`,
the `GlRegDeps` that `splitPostGRA` leaves on the split block's new `BBEnd`
(modelled from the spec, external to this repository), and the next free
block number. -/
structure ASCCtx where
  pre : List Node
  node : Node
  ttNode : Node
  blockNum : Nat
  blockExt : Bool
  origDeps : Option Node
  prevSplitDeps : Option Node
  nextNum : Nat

/-- The region of the method body after `lowerArrayStoreCHK`: the blocks that
precede the block now holding the check (none if the transformation was
skipped), that block's number, extension flag, exit `GlRegDeps` and the
treetops it holds before the rest of the original block, the explicitly added
CFG edges, and the next free block number. -/
structure ASCResult where
  closed : List Block
  curNum : Nat
  curExt : Bool
  curDeps : Option Node
  curPre : List Node
  edges : List (Nat × Nat)
  nextNum : Nat
  deriving DecidableEq

/-- `TR::TreeLowering::lowerArrayStoreCHK` (lines 526-655).  The `gate`
argument is the verdict of the `performTransformation` call at line 544; the
source invokes it but does not consult the verdict, so the transformation
proceeds regardless of `gate`. -/
def lowerArrayStoreCHK (gate : Bool) (ctx : ASCCtx) : ASCResult :=
  let firstChild := ctx.node.firstChild
  let sourceChild := firstChild.secondChild
  let destChild := firstChild.childAt2
  if sourceChild.nonNull then
    { closed := [], curNum := ctx.blockNum, curExt := ctx.blockExt,
      curDeps := ctx.origDeps, curPre := ctx.pre ++ [ctx.ttNode],
      edges := [], nextNum := ctx.nextNum }
  else
    let _ := gate
    let anchoredArrayTT := treetop1 destChild
    let anchoredSourceTT := treetop1 sourceChild
    let vft := loadiN .aloadi .vft destChild
    let arrayCompClass := loadiN .aloadi .arrayComponentType vft
    let loadClassFlags := loadiN .iloadi .classFlags arrayCompClass
    let isValueTypeNode := iandN loadClassFlags (iconstN J9ClassIsValueType)
    let checkNum := ctx.nextNum
    let ifNode := createif .ificmpeq isValueTypeNode (iconstN 0) (some checkNum)
    let ifNode := addIfDeps ifNode ctx.prevSplitDeps
    let passThru := passThroughN none sourceChild
    let nullCheck := Node.mk .NULLCHK (some .nullCheck) none 0 none false [passThru]
    let prevBlock : Block :=
      { num := ctx.blockNum,
        tts := ctx.pre ++ [anchoredArrayTT, anchoredSourceTT, ifNode],
        isExt := ctx.blockExt, exitDeps := none }
    let nullCheckBlock : Block :=
      { num := ctx.nextNum + 1, tts := [nullCheck], isExt := true,
        exitDeps := ctx.prevSplitDeps }
    { closed := [prevBlock, nullCheckBlock], curNum := checkNum,
      curExt := false, curDeps := ctx.origDeps, curPre := [ctx.ttNode],
      edges := [(ctx.blockNum, checkNum)], nextNum := ctx.nextNum + 2 }

/-- The blocks of the edited region after `lowerArrayStoreCHK`, with `rest`
the treetops that followed the check in the original block. -/
def ascBlocks (gate : Bool) (ctx : ASCCtx) (rest : List Node) : List Block :=
  let r := lowerArrayStoreCHK gate ctx
  r.closed ++
    [{ num := r.curNum, tts := r.curPre ++ rest, isExt := r.curExt,
       exitDeps := r.curDeps }]

/-! ## The driver: perform / lowerValueTypeOperations (lines 37-131) -/

/-- Which of the two lowering patterns a node matches. -/
inductive MatchKind where
  | acmpCall
  | arrayStoreChk
  deriving DecidableEq, Repr

/-- Lines 116-117: the node is a call bound to the
`objectEqualityComparison` non-helper symbol. -/
def matchesAcmpPattern (n : Node) : Bool :=
  n.op.isCall && decide (n.sym = some SymRef.objectEqualityComparison)

mutual

/-- The pattern match of `lowerValueTypeOperations` (lines 116-130) applied
along the pre-order node walk of one treetop's tree: the first node that is
an equality-comparison call or an `ArrayStoreCHK`. -/
def findMatch : Node → Option (MatchKind × Node)
  | .mk o s r v d nn ks =>
    if matchesAcmpPattern (.mk o s r v d nn ks) then
      some (.acmpCall, .mk o s r v d nn ks)
    else if o = ILOp.ArrayStoreCHK then
      some (.arrayStoreChk, .mk o s r v d nn ks)
    else findMatchList ks

/-- `findMatch` over a list of children, in order. -/
def findMatchList : List Node → Option (MatchKind × Node)
  | [] => none
  | k :: ks =>
    match findMatch k with
    | some m => some m
    | none => findMatchList ks

end

/-- The ambient configuration of one pass invocation: the
`areValueTypesEnabled` capability flag, the `TR_DisableAcmpFastpath`
environment override, and the verdicts of the `performTransformation`
diagnostic gates. -/
structure PassEnv where
  valueTypesEnabled : Bool
  disableAcmpFastPath : Bool
  acmpGates : List Bool
  ascGate : Bool

/-- The traversal state while scanning the treetops of one (possibly
re-split) block: blocks already finished, the current block's number,
extension flag and exit `GlRegDeps`, the treetops of the current block
already passed, the fresh-number counter, the count of visited treetops, and
the explicitly added CFG edges. -/
structure ScanAcc where
  done : List Block
  curNum : Nat
  curExt : Bool
  curDeps : Option Node
  scanned : List Node
  counter : Nat
  visits : Nat
  edges : List (Nat × Nat)

/-- The treetop iteration of `perform` (lines 46-55) within one block,
dispatching `lowerValueTypeOperations` on each visited tree.  Rewriting the
shared call node's symbol (line 120) is modelled by replacing every
structurally identical occurrence in the remaining trees of the block; after
a transformation the traversal resumes behind the edit point, in the merge
block for the equality fast path and in the check block for the array-store
check (treetops inserted before the traversal point are not revisited; the
re-anchored result load cannot match either pattern).  The recursion is
driven by `fuel`, an upper bound on the number of treetops still to scan:
every resumption strictly shortens the remaining list, so the bound passed by
`driveBlocks` is never exhausted. -/
def driveTTs (env : PassEnv) : Nat → ScanAcc → List Node → Except Fatal ScanAcc
  | _, acc, [] => .ok acc
  | 0, acc, _ :: _ => .ok acc
  | fuel + 1, acc, t :: more =>
    let acc := { acc with visits := acc.visits + 1 }
    if !env.valueTypesEnabled then
      driveTTs env fuel { acc with scanned := acc.scanned ++ [t] } more
    else
      match findMatch t with
      | none => driveTTs env fuel { acc with scanned := acc.scanned ++ [t] } more
      | some (.acmpCall, n) =>
        let n2 := n.withSym SymRef.acmpHelper
        let t2 := replaceNode n n2 t
        let more2 := more.map (replaceNode n n2)
        if env.disableAcmpFastPath then
          driveTTs env fuel { acc with scanned := acc.scanned ++ [t2] } more2
        else
          let ctx : AcmpCtx :=
            { pre := acc.scanned, ttNode := t2, node := n2, post := more2,
              blockNum := acc.curNum, blockExt := acc.curExt,
              origDeps := acc.curDeps, splitDeps := none,
              outcome := .tempSlot acc.counter, nextNum := acc.counter + 1 }
          match fastpathAcmpHelper env.acmpGates ctx with
          | .error e => .error e
          | .ok st =>
            match st.mergeNum with
            | none =>
              driveTTs env fuel { acc with
                scanned := st.preTTs ++ t2 :: st.anchoredTT.toList,
                counter := st.nextNum,
                edges := acc.edges ++ st.edges } more2
            | some m =>
              driveTTs env fuel { acc with
                done := acc.done ++ st.chain ++
                  [{ num := st.callNum, tts := st.preTTs ++ t2 :: st.uncStores,
                     isExt := st.callExt, exitDeps := ctx.splitDeps }],
                curNum := m, curExt := false,
                scanned := [mergeAnchoredTT ctx],
                counter := st.nextNum,
                edges := acc.edges ++ st.edges } (mergeRest ctx)
      | some (.arrayStoreChk, n) =>
        let ctx : ASCCtx :=
          { pre := acc.scanned, node := n, ttNode := t,
            blockNum := acc.curNum, blockExt := acc.curExt,
            origDeps := acc.curDeps, prevSplitDeps := none,
            nextNum := acc.counter }
        let r := lowerArrayStoreCHK env.ascGate ctx
        driveTTs env fuel { acc with
          done := acc.done ++ r.closed, curNum := r.curNum,
          curExt := r.curExt, curDeps := r.curDeps, scanned := r.curPre,
          counter := r.nextNum, edges := acc.edges ++ r.edges } more

/-- The block-level iteration of `perform`: process every block's treetops in
order, threading the counter, visit count and edges. -/
def driveBlocks (env : PassEnv) (counter visits : Nat)
    (edges : List (Nat × Nat)) :
    List Block → Except Fatal (List Block × Nat × Nat × List (Nat × Nat))
  | [] => .ok ([], counter, visits, edges)
  | b :: rest =>
    match driveTTs env b.tts.length
        { done := [], curNum := b.num, curExt := b.isExt,
          curDeps := b.exitDeps, scanned := [], counter := counter,
          visits := visits, edges := edges } b.tts with
    | .error e => .error e
    | .ok acc =>
      match driveBlocks env acc.counter acc.visits acc.edges rest with
      | .error e => .error e
      | .ok (bs, c, v, es) =>
        .ok (acc.done ++
          [{ num := acc.curNum, tts := acc.scanned, isExt := acc.curExt,
             exitDeps := acc.curDeps }] ++ bs, c, v, es)

/-- The outcome of one `perform` invocation: the returned status code, the
method body, the number of visited treetops and the explicitly added CFG
edges. -/
structure PassResult where
  ret : Int
  blocks : List Block
  visits : Nat
  edges : List (Nat × Nat)
  counter : Nat
  deriving DecidableEq

/-- `TR::TreeLowering::perform` (lines 37-58): return 0 immediately when
value types are not enabled, otherwise iterate over the whole method body and
lower the matched operations.  `counter0` seeds the fresh block/temp
numbering used by the splits. -/
def perform (env : PassEnv) (counter0 : Nat) (body : List Block) :
    Except Fatal PassResult :=
  if !env.valueTypesEnabled then
    .ok { ret := 0, blocks := body, visits := 0, edges := [], counter := counter0 }
  else
    match driveBlocks env counter0 0 [] body with
    | .error e => .error e
    | .ok (bs, c, v, es) =>
      .ok { ret := 0, blocks := bs, visits := v, edges := es, counter := c }

/-- The method body produced by one `perform` invocation. -/
def performBlocks (env : PassEnv) (counter0 : Nat) (body : List Block) :
    Except Fatal (List Block) :=
  match perform env counter0 body with
  | .error e => .error e
  | .ok r => .ok r.blocks

/-! ## Shared concrete examples used by witnesses and counterexamples -/

/-- A plain object-reference load (the `lhs` of the example comparisons). -/
def exLhs : Node := .mk .aload (some (.generic 1)) none 0 none false []

/-- A plain object-reference load (the `rhs` of the example comparisons). -/
def exRhs : Node := .mk .aload (some (.generic 2)) none 0 none false []

/-- A reference-equality comparison call, still bound to the non-helper
symbol. -/
def exCall : Node :=
  .mk .icall (some .objectEqualityComparison) none 0 none false [exLhs, exRhs]

/-- The example call after the driver rewrote its symbol to the VM helper. -/
def exCallHelper : Node := exCall.withSym .acmpHelper

/-- A concrete `fastpathAcmpHelper` invocation context: the call treetop is
alone in its block, the call's result goes to temp slot 0, no live registers
cross the block boundary. -/
def exAcmpCtx : AcmpCtx :=
  { pre := [], ttNode := treetop1 exCallHelper, node := exCallHelper, post := [],
    blockNum := 1, blockExt := false, origDeps := none, splitDeps := none,
    outcome := .tempSlot 0, nextNum := 2 }

/-- An example `ArrayStoreCHK` node; `nn` is the `isNonNull` flag of the
stored value. -/
def exASC (nn : Bool) : Node :=
  .mk .ArrayStoreCHK none none 0 none false
    [.mk .astorei none none 0 none false
      [.mk .aladd none none 0 none false [],
       .mk .aload (some (.generic 5)) none 0 none nn [],
       .mk .aload (some (.generic 6)) none 0 none false []]]

/-- A concrete `lowerArrayStoreCHK` invocation context. -/
def exASCCtx (nn : Bool) : ASCCtx :=
  { pre := [], node := exASC nn, ttNode := exASC nn, blockNum := 1,
    blockExt := false, origDeps := none, prevSplitDeps := none, nextNum := 2 }

/-- An evaluation environment whose classes all have the value-kind flag
set. -/
def exEnvVK : EvalEnv :=
  { addrOf := fun _ => 7, intOf := fun _ => 0, classOf := fun _ => 3,
    componentClassOf := fun _ => 4, flagsOf := fun _ => J9ClassIsValueType }

/-- A pass environment with value types enabled and nothing disabled. -/
def exEnvOn : PassEnv :=
  { valueTypesEnabled := true, disableAcmpFastPath := false,
    acmpGates := gatesAllTrue, ascGate := true }

/-- A pass environment with the value-types capability flag off. -/
def exEnvOff : PassEnv :=
  { valueTypesEnabled := false, disableAcmpFastPath := false,
    acmpGates := gatesAllTrue, ascGate := true }

/-- A one-block method body holding an `ArrayStoreCHK` whose stored value may
be null. -/
def exBodyASC : List Block :=
  [{ num := 1, tts := [exASC false], isExt := false, exitDeps := none }]

/-! # Theorems for the claims -/

/-- The gathering loop of `moveNodeToEndOfBlock` splits the treetops after
`tt` into the non-stores (kept in place, in order) and the result stores
(gathered, in order). -/
theorem gatherResultStores_eq (node : Node) (post : List Node) :
    gatherResultStores node post =
      (post.filter (fun t => !(isResultStoreOf node t)),
       post.filter (isResultStoreOf node)) := by
  induction post with
  | nil => simp [gatherResultStores]
  | cons t rest ih =>
    by_cases h : isResultStoreOf node t = true <;>
      simp [gatherResultStores, ih, List.filter_cons, h]

/-- Claim C10: on a block whose treetops are `pre ++ tt :: post`, if `tt`'s
successor is already the block exit (`post = []`) `moveNodeToEndOfBlock`
leaves the treetop chain unchanged; otherwise it relinks `tt` together with
exactly those later treetops whose opcode is `iRegStore` or `istore` and
whose first child is `node`, preserving their relative order, as the last
treetops of the block, and every other treetop keeps its original relative
position. -/
theorem claimC10_moveNodeToEndOfBlock (pre : List Node) (tt : Node)
    (post : List Node) (node : Node) :
    (moveNodeToEndOfBlock pre tt post node).1 ++
        tt :: (moveNodeToEndOfBlock pre tt post node).2 =
      if post = [] then pre ++ tt :: post
      else pre ++ post.filter (fun t => !(isResultStoreOf node t)) ++
        tt :: post.filter (isResultStoreOf node) := by
  by_cases h : post = []
  · simp [moveNodeToEndOfBlock, h]
  · simp [moveNodeToEndOfBlock, List.isEmpty_iff, h, gatherResultStores_eq]

/-- Claim C6: the manifest copy installs, for each source entry, the
substitute by reference if the substitute is present and names the entry's
register pair, else a fresh duplicate if the entry is a passthrough, else
the source entry itself by reference (the spec's installation rule,
`specInstallRule`); and when at most one source entry names the substitute's
register pair, the substitute is installed at most once. -/
theorem claimC6_copyExitRegDeps (source : List RegDepEntry)
    (substituteNode : Option RegDepEntry)
    (huniq : ∀ s, substituteNode = some s →
      (source.filter (fun c =>
        decide (c.lowReg = s.lowReg) && decide (c.highReg = s.highReg))).length ≤ 1) :
    copyExitRegDepsAndSubstitue source substituteNode =
        source.map (specInstallRule substituteNode) ∧
    (∀ s, substituteNode = some s →
      ((copyExitRegDepsAndSubstitue source substituteNode).filter
        (fun i => decide (i = InstalledDep.byRef s))).length ≤ 1) := by
  constructor
  · unfold copyExitRegDepsAndSubstitue
    apply List.map_congr_left
    intro c _
    cases substituteNode with
    | none => rfl
    | some s =>
      by_cases h1 : c.lowReg = s.lowReg <;> by_cases h2 : c.highReg = s.highReg <;>
        simp [specInstallRule, h1, h2]
  · intro s hs
    subst hs
    have hpoint : ∀ c : RegDepEntry,
        (decide ((if decide (c.lowReg = s.lowReg) && decide (c.highReg = s.highReg) then
              InstalledDep.byRef s
            else if c.isPassThrough then .freshCopy c else .byRef c)
            = InstalledDep.byRef s)) =
        (decide (c.lowReg = s.lowReg) && decide (c.highReg = s.highReg)) := by
      intro c
      by_cases hb : (decide (c.lowReg = s.lowReg) &&
          decide (c.highReg = s.highReg)) = true
      · simp [hb]
      · have hcs : c ≠ s := by
          intro he
          subst he
          simp at hb
        rw [Bool.not_eq_true] at hb
        by_cases h3 : c.isPassThrough = true <;>
          simp [hb, h3, hcs]
    calc ((copyExitRegDepsAndSubstitue source (some s)).filter
            (fun i => decide (i = InstalledDep.byRef s))).length
        = List.countP (fun i => decide (i = InstalledDep.byRef s))
            (copyExitRegDepsAndSubstitue source (some s)) := by
          rw [List.countP_eq_length_filter]
      _ = List.countP (fun c => decide (c.lowReg = s.lowReg) &&
            decide (c.highReg = s.highReg)) source := by
          unfold copyExitRegDepsAndSubstitue
          rw [List.countP_map]
          exact List.countP_congr (fun c _ => by simpa using hpoint c)
      _ = (source.filter (fun c => decide (c.lowReg = s.lowReg) &&
            decide (c.highReg = s.highReg))).length := by
          rw [List.countP_eq_length_filter]
      _ ≤ 1 := huniq s rfl

/-- A concrete source manifest: one passthrough entry on register pair
(1, 1), one direct-carry entry on register pair (2, 2). -/
def exRegDepSource : List RegDepEntry :=
  [{ id := 10, isPassThrough := true, lowReg := 1, highReg := 1, child := some 9 },
   { id := 11, isPassThrough := false, lowReg := 2, highReg := 2, child := none }]

/-- A concrete substitute naming register pair (1, 1). -/
def exRegDepSub : RegDepEntry :=
  { id := 20, isPassThrough := false, lowReg := 1, highReg := 1, child := some 8 }

/-- Witness for claim C6 at a concrete manifest. -/
theorem claimC6_witness :
    ((∀ s, some exRegDepSub = some s →
      (exRegDepSource.filter (fun c =>
        decide (c.lowReg = s.lowReg) && decide (c.highReg = s.highReg))).length ≤ 1)) ∧
    (copyExitRegDepsAndSubstitue exRegDepSource (some exRegDepSub) =
        exRegDepSource.map (specInstallRule (some exRegDepSub)) ∧
      (∀ s, some exRegDepSub = some s →
        ((copyExitRegDepsAndSubstitue exRegDepSource (some exRegDepSub)).filter
          (fun i => decide (i = InstalledDep.byRef s))).length ≤ 1)) :=
  ⟨by decide, claimC6_copyExitRegDeps exRegDepSource (some exRegDepSub) (by decide)⟩

/-- Claim C3: with the value-kind capability flag off, `perform` returns 0
immediately: the method body is unchanged, no treetop is visited, no CFG edge
is added. -/
theorem claimC3_perform (env : PassEnv) (counter0 : Nat) (body : List Block)
    (h : env.valueTypesEnabled = false) :
    perform env counter0 body =
      .ok { ret := 0, blocks := body, visits := 0, edges := [],
            counter := counter0 } := by
  simp [perform, h]

/-- Witness for claim C3 at a concrete method body. -/
theorem claimC3_witness :
    exEnvOff.valueTypesEnabled = false ∧
    perform exEnvOff 0 exBodyASC =
      .ok { ret := 0, blocks := exBodyASC, visits := 0, edges := [],
            counter := 0 } :=
  ⟨rfl, claimC3_perform exEnvOff 0 exBodyASC rfl⟩

/-- Claim C5: when the stored value is statically proven non-null,
`lowerArrayStoreCHK` leaves the IR unchanged — the enclosing block keeps its
treetops, no block is created, no edge is added, no fresh number is
consumed. -/
theorem claimC5_lowerArrayStoreCHK (gate : Bool) (ctx : ASCCtx)
    (rest : List Node)
    (h : ctx.node.firstChild.secondChild.nonNull = true) :
    ascBlocks gate ctx rest =
      [{ num := ctx.blockNum, tts := ctx.pre ++ ctx.ttNode :: rest,
         isExt := ctx.blockExt, exitDeps := ctx.origDeps }] ∧
    (lowerArrayStoreCHK gate ctx).edges = [] ∧
    (lowerArrayStoreCHK gate ctx).nextNum = ctx.nextNum := by
  refine ⟨?_, ?_, ?_⟩ <;> simp [ascBlocks, lowerArrayStoreCHK, h]

/-- Witness for claim C5 at a concrete check whose source is non-null. -/
theorem claimC5_witness :
    (exASCCtx true).node.firstChild.secondChild.nonNull = true ∧
    ascBlocks true (exASCCtx true) [] =
      [{ num := 1, tts := [exASC true], isExt := false, exitDeps := none }] := by
  have h := claimC5_lowerArrayStoreCHK true (exASCCtx true) [] rfl
  exact ⟨rfl, by rw [h.1]; rfl⟩

/-- The branch node `lowerArrayStoreCHK` appends at the end of the original
block, testing the array component class's value-kind flag against 0. -/
def ascIfNode (ctx : ASCCtx) : Node :=
  addIfDeps
    (createif .ificmpeq
      (iandN
        (loadiN .iloadi .classFlags
          (loadiN .aloadi .arrayComponentType
            (loadiN .aloadi .vft ctx.node.firstChild.childAt2)))
        (iconstN J9ClassIsValueType))
      (iconstN 0) (some ctx.nextNum))
    ctx.prevSplitDeps

/-- Claim C4: on a possibly-null stored value, `lowerArrayStoreCHK` produces
exactly: the original block ending in a branch that tests the array component
class's value-kind flag and jumps to the check block, a fall-through
extension block holding the `NULLCHK` of the stored value, and the check
block holding the original `ArrayStoreCHK`; and the branch transfers control
to the check block exactly when the component class is not a value kind
(falling through to the null check otherwise). -/
theorem claimC4_lowerArrayStoreCHK (gate : Bool) (ctx : ASCCtx)
    (rest : List Node) (env : EvalEnv)
    (h : ctx.node.firstChild.secondChild.nonNull = false) :
    ascBlocks gate ctx rest =
      [{ num := ctx.blockNum,
         tts := ctx.pre ++
           [treetop1 ctx.node.firstChild.childAt2,
            treetop1 ctx.node.firstChild.secondChild,
            ascIfNode ctx],
         isExt := ctx.blockExt, exitDeps := none },
       { num := ctx.nextNum + 1,
         tts := [Node.mk .NULLCHK (some .nullCheck) none 0 none false
           [passThroughN none ctx.node.firstChild.secondChild]],
         isExt := true, exitDeps := ctx.prevSplitDeps },
       { num := ctx.nextNum, tts := ctx.ttNode :: rest, isExt := false,
         exitDeps := ctx.origDeps }] ∧
    branchTakenTo env (ascIfNode ctx) =
      (if isValueKindClass env
          (env.componentClassOf
            (env.classOf (evalA env ctx.node.firstChild.childAt2)))
        then none else some ctx.nextNum) := by
  constructor
  · simp [ascBlocks, lowerArrayStoreCHK, h, ascIfNode]
  · by_cases hl : Int.land
        (env.flagsOf (env.componentClassOf
          (env.classOf (evalA env ctx.node.firstChild.childAt2))))
        J9ClassIsValueType = 0 <;>
      cases hdep : ctx.prevSplitDeps <;>
        simp [ascIfNode, addIfDeps, branchTakenTo, createif, Node.addKid,
          glRegDepsN, evalI, evalA, iandN, iconstN, loadiN, isValueKindClass,
          hl, hdep]

/-- Witness for claim C4 at a concrete possibly-null store. -/
theorem claimC4_witness :
    (exASCCtx false).node.firstChild.secondChild.nonNull = false ∧
    (ascBlocks true (exASCCtx false) []).length = 3 ∧
    branchTakenTo exEnvVK (ascIfNode (exASCCtx false)) = none := by
  have h := claimC4_lowerArrayStoreCHK true (exASCCtx false) [] exEnvVK rfl
  refine ⟨rfl, by rw [h.1]; rfl, ?_⟩
  rw [h.2]
  rfl

/-- Whether `fastpathAcmpHelper` completed without a fatal assertion. -/
def acmpIsOk : Except Fatal AcmpState → Bool
  | .ok _ => true
  | .error _ => false

/-- The full run of `fastpathAcmpHelper` with every gate answering yes, when
the call's result was un-commoned into a temp slot and the call block's new
exit carries no register dependencies: the explicit final state. -/
theorem fastpathTempSlotState (pre post : List Node) (ttNode node : Node)
    (blockNum : Nat) (blockExt : Bool) (origDeps : Option Node)
    (s nextNum : Nat) :
    fastpathAcmpHelper gatesAllTrue
      { pre := pre, ttNode := ttNode, node := node, post := post,
        blockNum := blockNum, blockExt := blockExt, origDeps := origDeps,
        splitDeps := none, outcome := .tempSlot s, nextNum := nextNum } =
    .ok
      { preTTs := [],
        anchoredTT := none,
        anchoredResult := iloadN (.temp s),
        storeNode := istoreN (.temp s) (iconstN 0),
        regDepForStoreNode := none,
        exitGlRegDeps := none,
        chain :=
          [{ num := blockNum,
             tts := pre ++ [treetop1 node.firstChild, treetop1 node.secondChild,
               istoreN (.temp s) (iconstN 1),
               createif .ifacmpeq node.firstChild node.secondChild (some nextNum)],
             isExt := blockExt, exitDeps := none },
           { num := nextNum + 1,
             tts := [istoreN (.temp s) (iconstN 0),
               createif .ifacmpeq node.firstChild (aconstN 0) (some nextNum)],
             isExt := true, exitDeps := none },
           { num := nextNum + 2,
             tts := [createif .ifacmpeq node.secondChild (aconstN 0) (some nextNum)],
             isExt := true, exitDeps := none },
           { num := nextNum + 3,
             tts := [createif .ificmpeq
               (iandN (loadiN .iloadi .classFlags (loadiN .aloadi .vft node.firstChild))
                 (iconstN J9ClassIsValueType))
               (iconstN 0) (some nextNum)],
             isExt := true, exitDeps := none },
           { num := nextNum + 4,
             tts := [createif .ificmpeq
               (iandN (loadiN .iloadi .classFlags (loadiN .aloadi .vft node.secondChild))
                 (iconstN J9ClassIsValueType))
               (iconstN 0) (some nextNum)],
             isExt := true, exitDeps := none }],
        callNum := nextNum + 5,
        callExt := true,
        uncStores := [istoreN (.temp s) node],
        mergeNum := some nextNum,
        edges := [(blockNum, nextNum), (nextNum + 1, nextNum),
          (nextNum + 2, nextNum), (nextNum + 3, nextNum), (nextNum + 4, nextNum)],
        nextNum := nextNum + 6 } := by
  simp [fastpathAcmpHelper, gatesAllTrue, runGated, acmpSteps, initAcmpState,
    acmpStepAnchor, acmpStepSplit, acmpStepCmpFastpath, acmpStepLhsNull,
    acmpStepRhsNull, acmpStepLhsVT, acmpStepRhsVT, splitForFastpathStep,
    moveNodeToEndOfBlock, gatherResultStores, isResultStoreOf,
    outcomeResultNode, outcomeStores, copyBranchGlRegDepsAndSubstitute,
    Node.dupWithFirstChildInt, Node.firstChild, Node.op, Node.sym, Node.kids,
    istoreN, iloadN, iconstN, aconstN, createif, iandN, loadiN, treetop1]

/-- The full run of `fastpathAcmpHelper` with every gate answering yes, when
the call's result was un-commoned into a global register and the call block's
new exit carries no register dependencies: the explicit final state. -/
theorem fastpathGlobalRegState (pre post : List Node) (ttNode node : Node)
    (blockNum : Nat) (blockExt : Bool) (origDeps : Option Node)
    (r nextNum : Nat) :
    fastpathAcmpHelper gatesAllTrue
      { pre := pre, ttNode := ttNode, node := node, post := post,
        blockNum := blockNum, blockExt := blockExt, origDeps := origDeps,
        splitDeps := none, outcome := .globalReg r, nextNum := nextNum } =
    .ok
      { preTTs := [],
        anchoredTT := none,
        anchoredResult := iRegLoadN r,
        storeNode := iRegStoreN r (iconstN 0),
        regDepForStoreNode := some (passThroughN (some r) (iconstN 0)),
        exitGlRegDeps := none,
        chain :=
          [{ num := blockNum,
             tts := pre ++ [treetop1 node.firstChild, treetop1 node.secondChild,
               iRegStoreN r (iconstN 1),
               createif .ifacmpeq node.firstChild node.secondChild (some nextNum)],
             isExt := blockExt, exitDeps := none },
           { num := nextNum + 1,
             tts := [iRegStoreN r (iconstN 0),
               createif .ifacmpeq node.firstChild (aconstN 0) (some nextNum)],
             isExt := true, exitDeps := none },
           { num := nextNum + 2,
             tts := [createif .ifacmpeq node.secondChild (aconstN 0) (some nextNum)],
             isExt := true, exitDeps := none },
           { num := nextNum + 3,
             tts := [createif .ificmpeq
               (iandN (loadiN .iloadi .classFlags (loadiN .aloadi .vft node.firstChild))
                 (iconstN J9ClassIsValueType))
               (iconstN 0) (some nextNum)],
             isExt := true, exitDeps := none },
           { num := nextNum + 4,
             tts := [createif .ificmpeq
               (iandN (loadiN .iloadi .classFlags (loadiN .aloadi .vft node.secondChild))
                 (iconstN J9ClassIsValueType))
               (iconstN 0) (some nextNum)],
             isExt := true, exitDeps := none }],
        callNum := nextNum + 5,
        callExt := true,
        uncStores := [iRegStoreN r node],
        mergeNum := some nextNum,
        edges := [(blockNum, nextNum), (nextNum + 1, nextNum),
          (nextNum + 2, nextNum), (nextNum + 3, nextNum), (nextNum + 4, nextNum)],
        nextNum := nextNum + 6 } := by
  simp [fastpathAcmpHelper, gatesAllTrue, runGated, acmpSteps, initAcmpState,
    acmpStepAnchor, acmpStepSplit, acmpStepCmpFastpath, acmpStepLhsNull,
    acmpStepRhsNull, acmpStepLhsVT, acmpStepRhsVT, splitForFastpathStep,
    moveNodeToEndOfBlock, gatherResultStores, isResultStoreOf,
    outcomeResultNode, outcomeStores, copyBranchGlRegDepsAndSubstitute,
    Node.dupWithFirstChildInt, Node.firstChild, Node.op, Node.sym, Node.reg,
    Node.kids, iRegStoreN, iRegLoadN, iconstN, aconstN, createif, iandN,
    loadiN, treetop1, passThroughN]

/-- Claim C1 (amended): with no step vetoed and the call's result placed in a
temp slot, the lowering produces exactly six blocks in the fixed order
identity-check, lhs-null-check, rhs-null-check, lhs-value-kind-check,
rhs-value-kind-check, call, each check branching to the shared merge block
that follows the call and each non-first block a fall-through extension (so a
check runs only if all previous checks fell through); the first block stores
literal 1 and the second literal 0 before their branches, the third to fifth
blocks hold only their branch (no store — they reuse the stored 0), and the
call block stores the call's own result. -/
theorem claimC1_amended (pre post : List Node) (ttNode node : Node)
    (blockNum : Nat) (blockExt : Bool) (origDeps : Option Node)
    (s nextNum : Nat) :
    acmpLoweredBlocks
      { pre := pre, ttNode := ttNode, node := node, post := post,
        blockNum := blockNum, blockExt := blockExt, origDeps := origDeps,
        splitDeps := none, outcome := .tempSlot s, nextNum := nextNum } =
    [{ num := blockNum,
       tts := pre ++ [treetop1 node.firstChild, treetop1 node.secondChild,
         istoreN (.temp s) (iconstN 1),
         createif .ifacmpeq node.firstChild node.secondChild (some nextNum)],
       isExt := blockExt, exitDeps := none },
     { num := nextNum + 1,
       tts := [istoreN (.temp s) (iconstN 0),
         createif .ifacmpeq node.firstChild (aconstN 0) (some nextNum)],
       isExt := true, exitDeps := none },
     { num := nextNum + 2,
       tts := [createif .ifacmpeq node.secondChild (aconstN 0) (some nextNum)],
       isExt := true, exitDeps := none },
     { num := nextNum + 3,
       tts := [createif .ificmpeq
         (iandN (loadiN .iloadi .classFlags (loadiN .aloadi .vft node.firstChild))
           (iconstN J9ClassIsValueType))
         (iconstN 0) (some nextNum)],
       isExt := true, exitDeps := none },
     { num := nextNum + 4,
       tts := [createif .ificmpeq
         (iandN (loadiN .iloadi .classFlags (loadiN .aloadi .vft node.secondChild))
           (iconstN J9ClassIsValueType))
         (iconstN 0) (some nextNum)],
       isExt := true, exitDeps := none },
     { num := nextNum + 5, tts := [ttNode, istoreN (.temp s) node],
       isExt := true, exitDeps := none },
     { num := nextNum,
       tts := treetop1 (iloadN (.temp s)) ::
         post.map (replaceNode node (iloadN (.temp s))),
       isExt := false, exitDeps := origDeps }] := by
  rw [acmpLoweredBlocks, fastpathTempSlotState]
  simp [finalizeAcmp, mergeAnchoredTT, mergeRest, outcomeResultNode]

/-- Does the treetop store a literal boolean (an `iconst` 0 or 1)?  Claim-side
predicate, following the claim's words. -/
def isLiteralBoolStore (t : Node) : Bool :=
  (decide (t.op = ILOp.iRegStore) || decide (t.op = ILOp.istore)) &&
    (match t.kids with
     | [c] => decide (c.op = ILOp.iconst) &&
         (decide (c.ival = 0) || decide (c.ival = 1))
     | _ => false)

/-- Does the block store a literal boolean immediately before its final
(branch) treetop?  Claim-side predicate, following the claim's words. -/
def storesLiteralBoolBeforeBranch (b : Block) : Bool :=
  match b.tts.reverse with
  | _ :: st :: _ => isLiteralBoolStore st
  | _ => false

/-- Counterexample to claim C1 as stated: in the lowering of a concrete
helper call (no veto, result in a temp slot), the third of the six blocks —
the rhs-null check — holds only its branch and stores no literal boolean
before it, contradicting "each of the first five blocks storing a literal
boolean result before its branch". -/
theorem claimC1_counterexample :
    ((acmpLoweredBlocks exAcmpCtx).getD 2 defaultBlock).tts =
      [createif .ifacmpeq exRhs (aconstN 0) (some 2)] ∧
    storesLiteralBoolBeforeBranch
      ((acmpLoweredBlocks exAcmpCtx).getD 2 defaultBlock) = false :=
  ⟨rfl, rfl⟩

/-- Claim C2 (amended): in the equality fast-path chain (result in a temp
slot), the fourth inserted branch transfers control to the merge target
exactly when lhs's runtime class does NOT have the value-kind flag set, and
the fifth exactly when rhs's class does not; when the flag is set the branch
falls through toward the helper call. -/
theorem claimC2_amended (pre post : List Node) (ttNode node : Node)
    (blockNum : Nat) (blockExt : Bool) (origDeps : Option Node)
    (s nextNum : Nat) (env : EvalEnv) :
    branchTakenTo env
        (((acmpLoweredBlocks
          { pre := pre, ttNode := ttNode, node := node, post := post,
            blockNum := blockNum, blockExt := blockExt, origDeps := origDeps,
            splitDeps := none, outcome := .tempSlot s,
            nextNum := nextNum }).getD 3 defaultBlock).tts.getLastD defaultNode) =
      (if isValueKindClass env (env.classOf (evalA env node.firstChild))
        then none else some nextNum) ∧
    branchTakenTo env
        (((acmpLoweredBlocks
          { pre := pre, ttNode := ttNode, node := node, post := post,
            blockNum := blockNum, blockExt := blockExt, origDeps := origDeps,
            splitDeps := none, outcome := .tempSlot s,
            nextNum := nextNum }).getD 4 defaultBlock).tts.getLastD defaultNode) =
      (if isValueKindClass env (env.classOf (evalA env node.secondChild))
        then none else some nextNum) := by
  rw [acmpLoweredBlocks, fastpathTempSlotState]
  constructor
  · by_cases hl : Int.land
        (env.flagsOf (env.classOf (evalA env node.firstChild)))
        J9ClassIsValueType = 0 <;>
      simp [finalizeAcmp, branchTakenTo, createif, evalI, evalA, iandN,
        loadiN, iconstN, isValueKindClass, hl, List.getD]
  · by_cases hl : Int.land
        (env.flagsOf (env.classOf (evalA env node.secondChild)))
        J9ClassIsValueType = 0 <;>
      simp [finalizeAcmp, branchTakenTo, createif, evalI, evalA, iandN,
        loadiN, iconstN, isValueKindClass, hl, List.getD]

/-- Counterexample to claim C2 as stated: for a concrete lowered call and an
environment in which lhs's class HAS the value-kind flag set, the fourth
inserted branch does not transfer control to the merge target — the code
branches on the flag being clear, not set. -/
theorem claimC2_counterexample :
    isValueKindClass exEnvVK (exEnvVK.classOf (evalA exEnvVK exLhs)) = true ∧
    branchTakenTo exEnvVK
      (((acmpLoweredBlocks exAcmpCtx).getD 3 defaultBlock).tts.getLastD
        defaultNode) = none :=
  ⟨of_decide_eq_true rfl, rfl⟩

/-- Claim C9: if, after anchoring and the post-GRA split, the anchored call
has been transformed into anything other than a register-resident load
(`iRegLoad`) or a slot-resident load (`iload`), `fastpathAcmpHelper` aborts
compilation with a fatal assertion and nothing recovers it (the whole run is
the error); under the precondition that the anchored node is one of the two
load kinds, the fatal branch is unreachable (the run completes) and a store
of constant 1 to the matching register or slot is inserted before the
call. -/
theorem claimC9_assertFatal (ctx : AcmpCtx) :
    ((outcomeResultNode ctx.outcome).op ≠ .iRegLoad →
      (outcomeResultNode ctx.outcome).op ≠ .iload →
      fastpathAcmpHelper gatesAllTrue ctx =
        .error (.assertFatal "Anchored call has been turned into unexpected opcode")) ∧
    (∀ r, ctx.outcome = .globalReg r → ctx.splitDeps = none →
      acmpIsOk (fastpathAcmpHelper gatesAllTrue ctx) = true ∧
      ((acmpLoweredBlocks ctx).getD 0 defaultBlock).tts =
        ctx.pre ++ [treetop1 ctx.node.firstChild, treetop1 ctx.node.secondChild,
          iRegStoreN r (iconstN 1),
          createif .ifacmpeq ctx.node.firstChild ctx.node.secondChild
            (some ctx.nextNum)]) ∧
    (∀ s, ctx.outcome = .tempSlot s → ctx.splitDeps = none →
      acmpIsOk (fastpathAcmpHelper gatesAllTrue ctx) = true ∧
      ((acmpLoweredBlocks ctx).getD 0 defaultBlock).tts =
        ctx.pre ++ [treetop1 ctx.node.firstChild, treetop1 ctx.node.secondChild,
          istoreN (.temp s) (iconstN 1),
          createif .ifacmpeq ctx.node.firstChild ctx.node.secondChild
            (some ctx.nextNum)]) := by
  obtain ⟨pre, ttNode, node, post, blockNum, blockExt, origDeps, splitDeps,
    outcome, nextNum⟩ := ctx
  refine ⟨?_, ?_, ?_⟩
  · intro h1 h2
    cases outcome with
    | globalReg r =>
      exact absurd (by simp [outcomeResultNode, iRegLoadN, Node.op]) h1
    | tempSlot s =>
      exact absurd (by simp [outcomeResultNode, iloadN, Node.op]) h2
    | unexpected n =>
      simp only [outcomeResultNode] at h1 h2
      simp [fastpathAcmpHelper, gatesAllTrue, runGated, acmpSteps,
        initAcmpState, acmpStepAnchor, acmpStepSplit, acmpStepCmpFastpath,
        moveNodeToEndOfBlock, gatherResultStores, isResultStoreOf,
        outcomeResultNode, outcomeStores, h1, h2]
  · intro r ho hd
    cases ho
    cases hd
    constructor
    · rw [fastpathGlobalRegState]
      rfl
    · rw [acmpLoweredBlocks, fastpathGlobalRegState]
      simp [finalizeAcmp]
  · intro s ho hd
    cases ho
    cases hd
    constructor
    · rw [fastpathTempSlotState]
      rfl
    · rw [acmpLoweredBlocks, fastpathTempSlotState]
      simp [finalizeAcmp]

/-- A `fastpathAcmpHelper` context whose anchored call has been transformed
into an unexpected node (an `iconst`). -/
def exAcmpCtxBad : AcmpCtx :=
  { exAcmpCtx with outcome := .unexpected (iconstN 5) }

/-- Witness for claim C9: at the concrete unexpected outcome the run is the
fatal assertion, and at the concrete temp-slot outcome the run completes with
the store of constant 1 in the first block. -/
theorem claimC9_witness :
    ((outcomeResultNode exAcmpCtxBad.outcome).op ≠ ILOp.iRegLoad ∧
     (outcomeResultNode exAcmpCtxBad.outcome).op ≠ ILOp.iload ∧
     fastpathAcmpHelper gatesAllTrue exAcmpCtxBad =
       .error (.assertFatal "Anchored call has been turned into unexpected opcode")) ∧
    (exAcmpCtx.outcome = .tempSlot 0 ∧
     acmpIsOk (fastpathAcmpHelper gatesAllTrue exAcmpCtx) = true) := by
  have h := claimC9_assertFatal exAcmpCtxBad
  have h2 := claimC9_assertFatal exAcmpCtx
  refine ⟨⟨of_decide_eq_true rfl, of_decide_eq_true rfl, ?_⟩, rfl, ?_⟩
  · exact h.1 (of_decide_eq_true rfl) (of_decide_eq_true rfl)
  · exact ((h2.2.2 0 rfl rfl).1)

/-- When the first `i` gates answer yes and gate `i` vetoes, the gated run is
exactly the run of the first `i` steps: nothing after the veto is executed. -/
theorem runGated_stop (i : Nat) : ∀ (gates : List Bool)
    (fs : List (AcmpState → Except Fatal AcmpState)) (st : AcmpState),
    gates.take i = List.replicate i true → gates.getD i false = false →
    runGated gates fs st = runSteps (fs.take i) st := by
  induction i with
  | zero =>
    intro gates fs st _ hget
    cases gates with
    | nil => cases fs <;> simp [runGated, runSteps]
    | cons g gs =>
      simp only [List.getD_cons_zero] at hget
      subst hget
      cases fs <;> simp [runGated, runSteps]
  | succ i ih =>
    intro gates fs st htake hget
    cases gates with
    | nil => simp [List.replicate_succ] at htake
    | cons g gs =>
      simp only [List.take_succ_cons, List.replicate_succ,
        List.cons.injEq] at htake
      obtain ⟨hg, hgs⟩ := htake
      subst hg
      simp only [List.getD_cons_succ] at hget
      cases fs with
      | nil => simp [runGated, runSteps]
      | cons f fs2 =>
        simp only [runGated, if_true]
        cases hfs : f st with
        | error e => simp [runSteps, hfs]
        | ok s2 =>
          simp only [runSteps, hfs]
          exact ih gs fs2 s2 hgs hget

/-- Claim C7 (amended): for the equality-helper lowering, a vetoed step stops
all further edits for that node — with the first `i` gates answering yes and
gate `i` vetoing, the whole of `fastpathAcmpHelper` is exactly the first `i`
steps, regardless of the later gates, so the IR built so far stands; the
array-store transformer, however, invokes its gate but performs the
transformation regardless of the verdict. -/
theorem claimC7_amended :
    (∀ (ctx : AcmpCtx) (gates : List Bool) (i : Nat),
      gates.take i = List.replicate i true → gates.getD i false = false →
      fastpathAcmpHelper gates ctx =
        runSteps ((acmpSteps ctx).take i) (initAcmpState ctx)) ∧
    (∀ (gate : Bool) (ctx : ASCCtx),
      lowerArrayStoreCHK gate ctx = lowerArrayStoreCHK true ctx) := by
  constructor
  · intro ctx gates i h1 h2
    exact runGated_stop i gates (acmpSteps ctx) (initAcmpState ctx) h1 h2
  · intro gate ctx
    rfl

/-- Witness for claim C7: a concrete veto at the second gate, and the
concrete array-store transformation being insensitive to its gate. -/
theorem claimC7_witness :
    ([true, false].take 1 = List.replicate 1 true) ∧
    ([true, false].getD 1 false = false) ∧
    fastpathAcmpHelper [true, false] exAcmpCtx =
      runSteps ((acmpSteps exAcmpCtx).take 1) (initAcmpState exAcmpCtx) ∧
    lowerArrayStoreCHK false (exASCCtx false) =
      lowerArrayStoreCHK true (exASCCtx false) := by
  have h := claimC7_amended
  exact ⟨rfl, rfl, h.1 exAcmpCtx [true, false] 1 rfl rfl,
    h.2 false (exASCCtx false)⟩

/-- Counterexample to claim C7 as stated: when the diagnostic gate vetoes the
array-store transformation (gate `false`), the transformer still splits the
block and inserts the branch and `NULLCHK` — three blocks instead of the
untouched original block — because the verdict of `performTransformation` at
line 544 is never consulted. -/
theorem claimC7_counterexample :
    (ascBlocks false (exASCCtx false) []).length = 3 ∧
    ascBlocks false (exASCCtx false) [] ≠
      [{ num := 1, tts := [exASC false], isExt := false, exitDeps := none }] :=
  ⟨rfl, of_decide_eq_true rfl⟩

/-- The destination array reference of the example array-store check. -/
def exDest : Node := .mk .aload (some (.generic 6)) none 0 none false []

/-- The stored value of the example array-store check. -/
def exSrc : Node := .mk .aload (some (.generic 5)) none 0 none false []

/-- The component-class value-kind branch the example array-store lowering
inserts, jumping to block `dest`. -/
def exASCIf (dest : Nat) : Node :=
  createif .ificmpeq
    (iandN
      (loadiN .iloadi .classFlags
        (loadiN .aloadi .arrayComponentType (loadiN .aloadi .vft exDest)))
      (iconstN J9ClassIsValueType))
    (iconstN 0) (some dest)

/-- The `NULLCHK` of the example stored value. -/
def exNullChk : Node :=
  .mk .NULLCHK (some .nullCheck) none 0 none false [passThroughN none exSrc]

/-- `exBodyASC` after one run of the pass. -/
def exASCOnce : List Block :=
  [{ num := 1, tts := [treetop1 exDest, treetop1 exSrc, exASCIf 100],
     isExt := false, exitDeps := none },
   { num := 101, tts := [exNullChk], isExt := true, exitDeps := none },
   { num := 100, tts := [exASC false], isExt := false, exitDeps := none }]

/-- `exASCOnce` after another run of the pass: the check block is split and
guarded again. -/
def exASCTwice : List Block :=
  [{ num := 1, tts := [treetop1 exDest, treetop1 exSrc, exASCIf 100],
     isExt := false, exitDeps := none },
   { num := 101, tts := [exNullChk], isExt := true, exitDeps := none },
   { num := 100, tts := [treetop1 exDest, treetop1 exSrc, exASCIf 200],
     isExt := false, exitDeps := none },
   { num := 201, tts := [exNullChk], isExt := true, exitDeps := none },
   { num := 200, tts := [exASC false], isExt := false, exitDeps := none }]

/-- Counterexample to claim C8 as stated: a body holding one array-store
check on a possibly-null value is lowered to three blocks by the first run,
and the second run matches the (still present, still possibly-null)
`ArrayStoreCHK` again and lowers it again, producing five blocks — the pass
is not idempotent on such bodies. -/
theorem claimC8_counterexample :
    performBlocks exEnvOn 100 exBodyASC = .ok exASCOnce ∧
    performBlocks exEnvOn 200 exASCOnce = .ok exASCTwice ∧
    exASCTwice ≠ exASCOnce :=
  ⟨rfl, rfl, of_decide_eq_true rfl⟩

/-! ## Idempotence machinery for claim C8 -/

/-- A treetop no node of which matches either lowering pattern. -/
def ttClean (t : Node) : Bool := decide (findMatch t = none)

mutual

/-- Every node of `t` that matches either lowering pattern is (an occurrence
of) the shared node `n` itself: the node walk of a second pass run finds no
match in `t` beyond `n`. -/
def onlyMatch (n : Node) : Node → Bool
  | .mk o s r v d nn ks =>
    if (Node.mk o s r v d nn ks) = n then true
    else
      !matchesAcmpPattern (.mk o s r v d nn ks) &&
        !decide (o = ILOp.ArrayStoreCHK) && onlyMatchList n ks

/-- `onlyMatch` over a child list. -/
def onlyMatchList (n : Node) : List Node → Bool
  | [] => true
  | k :: ks => onlyMatch n k && onlyMatchList n ks

end

/-- A treetop on which one driver visit completes the lowering: either no
node matches a lowering pattern, or the only matching node (shared
occurrences included, at any depth) is one reference-equality comparison
call whose arguments match neither pattern. -/
def ttAcmpOnly (t : Node) : Bool :=
  ttClean t ||
    match findMatch t with
    | some (.acmpCall, n) => onlyMatch n t && n.kids.all ttClean
    | _ => false

theorem findMatchList_none_iff : ∀ (ks : List Node),
    findMatchList ks = none ↔ ∀ k ∈ ks, findMatch k = none := by
  intro ks
  induction ks with
  | nil => simp [findMatchList]
  | cons k rest ih =>
    rw [findMatchList]
    cases hk : findMatch k with
    | some m => simp [hk]
    | none => simp [hk, ih]

theorem findMatch_mk_none_iff (o : ILOp) (s : Option SymRef) (r : Option Nat)
    (v : Int) (d : Option Nat) (nn : Bool) (ks : List Node) :
    findMatch (.mk o s r v d nn ks) = none ↔
      matchesAcmpPattern (.mk o s r v d nn ks) = false ∧
      o ≠ ILOp.ArrayStoreCHK ∧ (∀ k ∈ ks, findMatch k = none) := by
  rw [findMatch]
  by_cases h1 : matchesAcmpPattern (.mk o s r v d nn ks) = true
  · simp [h1]
  · rw [Bool.not_eq_true] at h1
    by_cases h2 : o = ILOp.ArrayStoreCHK
    · subst h2
      simp [h1]
    · simp [h1, h2, findMatchList_none_iff]

theorem onlyMatchList_all (n : Node) : ∀ (ls : List Node),
    onlyMatchList n ls = true ↔ ∀ k ∈ ls, onlyMatch n k = true := by
  intro ls
  induction ls with
  | nil => simp [onlyMatchList]
  | cons a as ih => simp [onlyMatchList, Bool.and_eq_true, ih]

/-- Every node satisfies `onlyMatch` against itself. -/
theorem onlyMatch_self : ∀ (x : Node), onlyMatch x x = true := by
  intro x
  obtain ⟨o, s, r, v, d, nn, ks⟩ := x
  rw [onlyMatch, if_pos rfl]

/-- The node reported by a successful equality-call pattern match is itself a
match of that pattern. -/
theorem findMatch_acmpCall_matches : ∀ t n,
    findMatch t = some (.acmpCall, n) → matchesAcmpPattern n = true := by
  intro t
  induction t using Node.inductionOn with
  | _ o s r v d nn ks ih =>
    intro n h
    rw [findMatch] at h
    by_cases h1 : matchesAcmpPattern (.mk o s r v d nn ks) = true
    · rw [if_pos h1] at h
      simp only [Option.some.injEq, Prod.mk.injEq, true_and] at h
      rw [← h]
      exact h1
    · rw [if_neg h1] at h
      by_cases h2 : o = ILOp.ArrayStoreCHK
      · rw [if_pos h2] at h
        simp at h
      · rw [if_neg h2] at h
        have hlist : ∀ (ls : List Node), (∀ k ∈ ls, k ∈ ks) →
            findMatchList ls = some (.acmpCall, n) →
            matchesAcmpPattern n = true := by
          intro ls
          induction ls with
          | nil => intro _ hx; simp [findMatchList] at hx
          | cons a as iha =>
            intro hsub hx
            rw [findMatchList] at hx
            cases ha : findMatch a with
            | some m =>
              simp only [ha, Option.some.injEq] at hx
              subst hx
              exact ih a (hsub a (List.mem_cons_self a as)) n ha
            | none =>
              simp only [ha] at hx
              exact iha (fun k hk => hsub k (List.mem_cons_of_mem a hk)) hx
        exact hlist ks (fun k hk => hk) h

/-- A pattern-free tree satisfies `onlyMatch` against any node. -/
theorem clean_onlyMatch : ∀ t, findMatch t = none →
    ∀ w, onlyMatch w t = true := by
  intro t
  induction t using Node.inductionOn with
  | _ o s r v d nn ks ih =>
    intro h w
    rw [findMatch_mk_none_iff] at h
    obtain ⟨h1, h2, h3⟩ := h
    rw [onlyMatch]
    by_cases he : (Node.mk o s r v d nn ks) = w
    · rw [if_pos he]
    · rw [if_neg he]
      simp only [Bool.and_eq_true, Bool.not_eq_true', decide_eq_false_iff_not,
        h1, onlyMatchList_all]
      exact ⟨⟨trivial, h2⟩, fun k hk => ih k hk (h3 k hk) w⟩

theorem replaceNodeList_eq_map (old new : Node) : ∀ (ks : List Node),
    replaceNodeList old new ks = ks.map (replaceNode old new) := by
  intro ks
  induction ks with
  | nil => rfl
  | cons k ks ih => rw [replaceNodeList, List.map_cons, ih]

/-- Replacing a shared node by a pattern-free node inside a pattern-free tree
leaves the tree pattern-free. -/
theorem replaceNode_clean (old new : Node) (hnew : findMatch new = none) :
    ∀ t, findMatch t = none → findMatch (replaceNode old new t) = none := by
  intro t
  induction t using Node.inductionOn with
  | _ o s r v d nn ks ih =>
    intro ht
    rw [replaceNode]
    by_cases he : Node.mk o s r v d nn ks = old
    · simp [he, hnew]
    · rw [if_neg he]
      rw [findMatch_mk_none_iff] at ht ⊢
      obtain ⟨h1, h2, h3⟩ := ht
      refine ⟨h1, h2, ?_⟩
      intro k2 hk2
      rw [replaceNodeList_eq_map] at hk2
      obtain ⟨k0, hk0, rfl⟩ := List.mem_map.mp hk2
      exact ih k0 hk0 (h3 k0 hk0)

/-- Replacing occurrences of a node that matches the equality-call pattern
fixes pattern-free trees: the node cannot occur in them. -/
theorem replaceNode_fix_clean (old new : Node)
    (hold : matchesAcmpPattern old = true) :
    ∀ t, findMatch t = none → replaceNode old new t = t := by
  intro t
  induction t using Node.inductionOn with
  | _ o s r v d nn ks ih =>
    intro h
    rw [findMatch_mk_none_iff] at h
    obtain ⟨h1, h2, h3⟩ := h
    have hne : (Node.mk o s r v d nn ks) ≠ old := by
      intro he
      rw [← he] at hold
      rw [hold] at h1
      cases h1
    have hk : replaceNodeList old new ks = ks := by
      rw [replaceNodeList_eq_map]
      have hfix : ∀ (ls : List Node), (∀ k ∈ ls, k ∈ ks) →
          ls.map (replaceNode old new) = ls := by
        intro ls
        induction ls with
        | nil => intro _; rfl
        | cons a as iha =>
          intro hsub
          rw [List.map_cons,
            ih a (hsub a (List.mem_cons_self a as))
              (h3 a (hsub a (List.mem_cons_self a as))),
            iha (fun k hk2 => hsub k (List.mem_cons_of_mem a hk2))]
      exact hfix ks (fun k hk2 => hk2)
    rw [replaceNode, if_neg hne, hk]

/-- Replacing occurrences of an equality-call node other than `m` fixes trees
whose only match is `m` with pattern-free arguments. -/
theorem replaceNode_fix_onlyMatch (old new m : Node)
    (hold : matchesAcmpPattern old = true) (hne : m ≠ old)
    (hkids : ∀ k ∈ m.kids, findMatch k = none) :
    ∀ t, onlyMatch m t = true → replaceNode old new t = t := by
  intro t
  induction t using Node.inductionOn with
  | _ o s r v d nn ks ih =>
    intro h
    by_cases he : (Node.mk o s r v d nn ks) = m
    · have hksclean : ∀ k ∈ ks, findMatch k = none := by
        intro k hk2
        apply hkids
        rw [← he]
        simpa using hk2
      have hk : replaceNodeList old new ks = ks := by
        rw [replaceNodeList_eq_map]
        have hfix : ∀ (ls : List Node), (∀ k ∈ ls, findMatch k = none) →
            ls.map (replaceNode old new) = ls := by
          intro ls hls
          induction ls with
          | nil => rfl
          | cons a as iha =>
            rw [List.map_cons,
              replaceNode_fix_clean old new hold a
                (hls a (List.mem_cons_self a as)),
              iha (fun k hk2 => hls k (List.mem_cons_of_mem a hk2))]
        exact hfix ks hksclean
      rw [replaceNode, if_neg (by rw [he]; exact hne), hk]
    · rw [onlyMatch, if_neg he] at h
      simp only [Bool.and_eq_true, Bool.not_eq_true',
        decide_eq_false_iff_not, onlyMatchList_all] at h
      obtain ⟨⟨h1, h2⟩, h3⟩ := h
      have hne2 : (Node.mk o s r v d nn ks) ≠ old := by
        intro he2
        rw [← he2] at hold
        rw [hold] at h1
        cases h1
      have hk : replaceNodeList old new ks = ks := by
        rw [replaceNodeList_eq_map]
        have hfix : ∀ (ls : List Node), (∀ k ∈ ls, k ∈ ks) →
            ls.map (replaceNode old new) = ls := by
          intro ls
          induction ls with
          | nil => intro _; rfl
          | cons a as iha =>
            intro hsub
            rw [List.map_cons,
              ih a (hsub a (List.mem_cons_self a as))
                (h3 a (hsub a (List.mem_cons_self a as))),
              iha (fun k hk2 => hsub k (List.mem_cons_of_mem a hk2))]
        exact hfix ks (fun k hk2 => hk2)
      rw [replaceNode, if_neg hne2, hk]

/-- Replacing every occurrence of the only matching node by a pattern-free
node leaves the tree pattern-free. -/
theorem replaceNode_onlyMatch_clean (n new : Node)
    (hnew : findMatch new = none) :
    ∀ t, onlyMatch n t = true → findMatch (replaceNode n new t) = none := by
  intro t
  induction t using Node.inductionOn with
  | _ o s r v d nn ks ih =>
    intro h
    rw [replaceNode]
    by_cases he : (Node.mk o s r v d nn ks) = n
    · rw [if_pos he]
      exact hnew
    · rw [if_neg he]
      rw [onlyMatch, if_neg he] at h
      simp only [Bool.and_eq_true, Bool.not_eq_true',
        decide_eq_false_iff_not, onlyMatchList_all] at h
      obtain ⟨⟨h1, h2⟩, h3⟩ := h
      rw [findMatch_mk_none_iff]
      refine ⟨by simpa [matchesAcmpPattern] using h1, h2, ?_⟩
      intro k hk
      rw [replaceNodeList_eq_map] at hk
      obtain ⟨k0, hk0, rfl⟩ := List.mem_map.mp hk
      exact ih k0 hk0 (h3 k0 hk0)

/-- In a tree whose only matching node is the equality call `m`, the pattern
walk reports `m` or nothing. -/
theorem onlyMatch_findMatch (m : Node) (hm : matchesAcmpPattern m = true) :
    ∀ t, onlyMatch m t = true →
      findMatch t = none ∨ findMatch t = some (.acmpCall, m) := by
  intro t
  induction t using Node.inductionOn with
  | _ o s r v d nn ks ih =>
    intro h
    by_cases he : (Node.mk o s r v d nn ks) = m
    · right
      rw [findMatch, if_pos (by rw [he]; exact hm), he]
    · rw [onlyMatch, if_neg he] at h
      simp only [Bool.and_eq_true, Bool.not_eq_true',
        decide_eq_false_iff_not, onlyMatchList_all] at h
      obtain ⟨⟨h1, h2⟩, h3⟩ := h
      rw [findMatch, if_neg (by simp [h1]), if_neg h2]
      have hlist : ∀ (ls : List Node), (∀ k ∈ ls, k ∈ ks) →
          findMatchList ls = none ∨ findMatchList ls = some (.acmpCall, m) := by
        intro ls
        induction ls with
        | nil => intro _; left; rfl
        | cons a as iha =>
          intro hsub
          rw [findMatchList]
          rcases ih a (hsub a (List.mem_cons_self a as))
              (h3 a (hsub a (List.mem_cons_self a as))) with ha | ha
          · rw [ha]
            exact iha (fun k hk => hsub k (List.mem_cons_of_mem a hk))
          · rw [ha]
            right
            rfl
      exact hlist ks (fun k hk => hk)

/-- `matchesAcmpPattern` only inspects the opcode and the symbol, which a
substitution below the root leaves alone. -/
theorem matchesAcmpPattern_replaceNode (old new t : Node) (hne : t ≠ old) :
    matchesAcmpPattern (replaceNode old new t) = matchesAcmpPattern t := by
  obtain ⟨o, s, r, v, d, nn, ks⟩ := t
  rw [replaceNode, if_neg hne]
  simp [matchesAcmpPattern]

theorem replaceNode_kids (old new t : Node) (hne : t ≠ old) :
    (replaceNode old new t).kids = replaceNodeList old new t.kids := by
  obtain ⟨o, s, r, v, d, nn, ks⟩ := t
  rw [replaceNode, if_neg hne]
  simp

/-- Substituting one pattern-free node for another transports the
`onlyMatch` witness through the substitution. -/
theorem onlyMatch_replaceNode (old new m : Node)
    (hold : findMatch old = none) (hnew : findMatch new = none)
    (hm : matchesAcmpPattern m = true) :
    ∀ t, onlyMatch m t = true →
      onlyMatch (replaceNode old new m) (replaceNode old new t) = true := by
  have hmo : m ≠ old := by
    intro he
    obtain ⟨o, s, r, v, d, nn, ks⟩ := old
    rw [findMatch_mk_none_iff] at hold
    rw [he] at hm
    rw [hold.1] at hm
    cases hm
  intro t
  induction t using Node.inductionOn with
  | _ o s r v d nn ks ih =>
    intro h
    by_cases he : (Node.mk o s r v d nn ks) = m
    · rw [he]
      exact onlyMatch_self _
    · by_cases ho : (Node.mk o s r v d nn ks) = old
      · rw [replaceNode, if_pos ho]
        exact clean_onlyMatch new hnew _
      · rw [onlyMatch, if_neg he] at h
        simp only [Bool.and_eq_true, Bool.not_eq_true',
          decide_eq_false_iff_not, onlyMatchList_all] at h
        obtain ⟨⟨h1, h2⟩, h3⟩ := h
        rw [replaceNode, if_neg ho, onlyMatch]
        by_cases he2 : (Node.mk o s r v d nn (replaceNodeList old new ks)) =
            replaceNode old new m
        · rw [if_pos he2]
        · rw [if_neg he2]
          simp only [Bool.and_eq_true, Bool.not_eq_true',
            decide_eq_false_iff_not, onlyMatchList_all]
          refine ⟨⟨by simpa [matchesAcmpPattern] using h1, h2⟩, ?_⟩
          intro k hk
          rw [replaceNodeList_eq_map] at hk
          obtain ⟨k0, hk0, rfl⟩ := List.mem_map.mp hk
          exact ih k0 hk0 (h3 k0 hk0)

/-- Unfolding of `ttAcmpOnly`: the treetop is pattern-free, or its first
match is an equality call that is the tree's only match and has pattern-free
arguments. -/
theorem ttAcmpOnly_cases (t : Node) (h : ttAcmpOnly t = true) :
    findMatch t = none ∨
    ∃ n, findMatch t = some (.acmpCall, n) ∧ matchesAcmpPattern n = true ∧
      onlyMatch n t = true ∧ ∀ k ∈ n.kids, findMatch k = none := by
  rw [ttAcmpOnly, Bool.or_eq_true] at h
  rcases h with h | h
  · left
    rw [ttClean] at h
    exact of_decide_eq_true h
  · cases hm : findMatch t with
    | none => exact Or.inl rfl
    | some p =>
      obtain ⟨kind, n⟩ := p
      rw [hm] at h
      cases kind with
      | arrayStoreChk => simp at h
      | acmpCall =>
        simp only [Bool.and_eq_true, List.all_eq_true] at h
        refine Or.inr ⟨n, rfl, findMatch_acmpCall_matches t n hm, h.1, ?_⟩
        intro k hk
        have hc := h.2 k hk
        rw [ttClean] at hc
        exact of_decide_eq_true hc

theorem ttAcmpOnly_of_clean (t : Node) (h : findMatch t = none) :
    ttAcmpOnly t = true := by
  rw [ttAcmpOnly, Bool.or_eq_true]
  left
  rw [ttClean]
  exact decide_eq_true h

/-- Replacing occurrences of a matching call node by a pattern-free node
preserves `ttAcmpOnly`. -/
theorem ttAcmpOnly_replaceNode_match (old new : Node)
    (hold : matchesAcmpPattern old = true) (hnew : findMatch new = none) :
    ∀ t, ttAcmpOnly t = true → ttAcmpOnly (replaceNode old new t) = true := by
  intro t h
  rcases ttAcmpOnly_cases t h with hc | ⟨n, hm, hmat, honly, hkids⟩
  · exact ttAcmpOnly_of_clean _ (replaceNode_clean old new hnew t hc)
  · by_cases he : old = n
    · subst he
      exact ttAcmpOnly_of_clean _ (replaceNode_onlyMatch_clean old new hnew t honly)
    · rw [replaceNode_fix_onlyMatch old new n hold (fun h2 => he h2.symm)
        hkids t honly]
      exact h

/-- Replacing occurrences of a pattern-free node by a pattern-free node
preserves `ttAcmpOnly`. -/
theorem ttAcmpOnly_replaceNode_clean (old new : Node)
    (hold : findMatch old = none) (hnew : findMatch new = none) :
    ∀ t, ttAcmpOnly t = true → ttAcmpOnly (replaceNode old new t) = true := by
  intro t h
  rcases ttAcmpOnly_cases t h with hc | ⟨n, hm, hmat, honly, hkids⟩
  · exact ttAcmpOnly_of_clean _ (replaceNode_clean old new hnew t hc)
  · have hno : n ≠ old := by
      intro he
      obtain ⟨o, s, r, v, d, nn, ks⟩ := old
      rw [findMatch_mk_none_iff] at hold
      rw [he] at hmat
      rw [hold.1] at hmat
      cases hmat
    have hmat2 : matchesAcmpPattern (replaceNode old new n) = true := by
      rw [matchesAcmpPattern_replaceNode old new n hno]
      exact hmat
    have honly2 : onlyMatch (replaceNode old new n) (replaceNode old new t)
        = true := onlyMatch_replaceNode old new n hold hnew hmat t honly
    have hkids2 : ∀ k ∈ (replaceNode old new n).kids, findMatch k = none := by
      rw [replaceNode_kids old new n hno, replaceNodeList_eq_map]
      intro k hk
      obtain ⟨k0, hk0, rfl⟩ := List.mem_map.mp hk
      exact replaceNode_clean old new hnew k0 (hkids k0 hk0)
    rcases onlyMatch_findMatch (replaceNode old new n) hmat2
        (replaceNode old new t) honly2 with hf | hf
    · exact ttAcmpOnly_of_clean _ hf
    · rw [ttAcmpOnly, Bool.or_eq_true]
      right
      simp only [hf, Bool.and_eq_true, List.all_eq_true]
      refine ⟨honly2, ?_⟩
      intro k hk
      rw [ttClean]
      exact decide_eq_true (hkids2 k hk)

/-! ### Pattern-freeness of the constructed fast-path trees -/

theorem defaultNode_clean : findMatch defaultNode = none := rfl

theorem treetop1_clean (c : Node) (h : findMatch c = none) :
    findMatch (treetop1 c) = none := by
  rw [treetop1, findMatch_mk_none_iff]
  refine ⟨by simp [matchesAcmpPattern, ILOp.isCall], by simp, ?_⟩
  intro k hk
  rw [List.mem_singleton] at hk
  subst hk
  exact h

theorem istoreN_clean (sr : SymRef) (c : Node) (h : findMatch c = none) :
    findMatch (istoreN sr c) = none := by
  rw [istoreN, findMatch_mk_none_iff]
  refine ⟨by simp [matchesAcmpPattern, ILOp.isCall], by simp, ?_⟩
  intro k hk
  rw [List.mem_singleton] at hk
  subst hk
  exact h

theorem createif_clean (op : ILOp) (c1 c2 : Node) (dst : Option Nat)
    (hop : ILOp.isCall op = false) (hasc : op ≠ ILOp.ArrayStoreCHK)
    (h1 : findMatch c1 = none) (h2 : findMatch c2 = none) :
    findMatch (createif op c1 c2 dst) = none := by
  rw [createif, findMatch_mk_none_iff]
  refine ⟨by simp [matchesAcmpPattern, hop], hasc, ?_⟩
  intro k hk
  rcases List.mem_cons.mp hk with rfl | hk2
  · exact h1
  · rw [List.mem_singleton] at hk2
    subst hk2
    exact h2

theorem iandN_clean (a b : Node) (ha : findMatch a = none)
    (hb : findMatch b = none) : findMatch (iandN a b) = none := by
  rw [iandN, findMatch_mk_none_iff]
  refine ⟨by simp [matchesAcmpPattern, ILOp.isCall], by simp, ?_⟩
  intro k hk
  rcases List.mem_cons.mp hk with rfl | hk2
  · exact ha
  · rw [List.mem_singleton] at hk2
    subst hk2
    exact hb

theorem loadiN_clean (op : ILOp) (sr : SymRef) (c : Node)
    (hop : ILOp.isCall op = false) (hasc : op ≠ ILOp.ArrayStoreCHK)
    (hc : findMatch c = none) : findMatch (loadiN op sr c) = none := by
  rw [loadiN, findMatch_mk_none_iff]
  refine ⟨by simp [matchesAcmpPattern, hop], hasc, ?_⟩
  intro k hk
  rw [List.mem_singleton] at hk
  subst hk
  exact hc

theorem firstChild_clean (t : Node) (h : findMatch t = none) :
    findMatch t.firstChild = none := by
  obtain ⟨o, s, r, v, d, nn, ks⟩ := t
  rw [findMatch_mk_none_iff] at h
  rw [Node.firstChild]
  rcases ks with _ | ⟨a, ks2⟩
  · exact rfl
  · exact h.2.2 a (List.mem_cons_self a ks2)

theorem secondChild_clean (t : Node) (h : findMatch t = none) :
    findMatch t.secondChild = none := by
  obtain ⟨o, s, r, v, d, nn, ks⟩ := t
  rw [findMatch_mk_none_iff] at h
  rw [Node.secondChild]
  rcases ks with _ | ⟨a, _ | ⟨b, ks2⟩⟩
  · exact rfl
  · exact rfl
  · exact h.2.2 b (by simp)

/-- Duplicating a pattern-free store and overwriting the constant payload of
its first child keeps it pattern-free. -/
theorem dup_clean (t : Node) (w : Int) (h : findMatch t = none) :
    findMatch (t.dupWithFirstChildInt w) = none := by
  obtain ⟨o, s, r, v, d, nn, ks⟩ := t
  rw [findMatch_mk_none_iff] at h
  obtain ⟨h1, h2, h3⟩ := h
  rcases ks with _ | ⟨c, rest⟩
  · rw [Node.dupWithFirstChildInt, findMatch_mk_none_iff]
    exact ⟨h1, h2, by simp⟩
  · obtain ⟨co, cs, cr, cv, cd, cnn, cks⟩ := c
    have hc := h3 _ (List.mem_cons_self _ rest)
    rw [findMatch_mk_none_iff] at hc
    rw [Node.dupWithFirstChildInt, findMatch_mk_none_iff]
    refine ⟨by simpa [matchesAcmpPattern] using h1, h2, ?_⟩
    intro k hk
    rcases List.mem_cons.mp hk with rfl | hk2
    · rw [findMatch_mk_none_iff]
      exact ⟨by simpa [matchesAcmpPattern] using hc.1, hc.2.1,
        by simpa using hc.2.2⟩
    · exact h3 k (List.mem_cons_of_mem _ hk2)

/-- The rewritten call (symbol bound to the runtime helper) matches neither
pattern when its arguments are pattern-free. -/
theorem withSym_clean (n : Node) (hmat : matchesAcmpPattern n = true)
    (hkids : ∀ k ∈ n.kids, findMatch k = none) :
    findMatch (n.withSym SymRef.acmpHelper) = none := by
  obtain ⟨o, s, r, v, d, nn, ks⟩ := n
  have hcall : ILOp.isCall o = true := by
    rw [matchesAcmpPattern] at hmat
    simp only [Bool.and_eq_true, Node.op_mk] at hmat
    exact hmat.1
  rw [Node.withSym, findMatch_mk_none_iff]
  refine ⟨by simp [matchesAcmpPattern], ?_, by simpa using hkids⟩
  intro he
  subst he
  simp [ILOp.isCall] at hcall

/-! ### The `fastpathAcmpHelper` cleanliness invariant, for every gate
vector -/

/-- Every tree the evolving `fastpathAcmpHelper` state can contribute to the
method body is pattern-free, and the register-dependency plumbing is empty
(the context of the driver carries no `GlRegDeps` across the split). -/
def cleanState (st : AcmpState) : Prop :=
  (∀ t ∈ st.preTTs, findMatch t = none) ∧
  (∀ t ∈ st.anchoredTT.toList, findMatch t = none) ∧
  (∀ b ∈ st.chain, ∀ t ∈ b.tts, findMatch t = none) ∧
  (∀ t ∈ st.uncStores, findMatch t = none) ∧
  findMatch st.storeNode = none ∧
  st.exitGlRegDeps = none ∧
  st.regDepForStoreNode = none

theorem acmpStepAnchor_inv (ctx : AcmpCtx)
    (hn : findMatch ctx.node = none)
    (hl : findMatch ctx.node.firstChild = none)
    (hr : findMatch ctx.node.secondChild = none)
    (st : AcmpState) (h : cleanState st) :
    ∃ st2, acmpStepAnchor ctx st = .ok st2 ∧ cleanState st2 ∧
      st2.anchoredResult = st.anchoredResult := by
  obtain ⟨h1, h2, h3, h4, h5, h6, h7⟩ := h
  refine ⟨_, rfl, ⟨?_, ?_, h3, h4, h5, h6, h7⟩, rfl⟩
  · intro t ht
    rcases List.mem_append.mp ht with ht2 | ht2
    · exact h1 t ht2
    · rcases List.mem_cons.mp ht2 with rfl | ht3
      · exact treetop1_clean _ hl
      · rw [List.mem_singleton] at ht3
        subst ht3
        exact treetop1_clean _ hr
  · intro t ht
    simp only [Option.toList_some, List.mem_singleton] at ht
    subst ht
    exact treetop1_clean _ hn

theorem acmpStepSplit_inv (ctx : AcmpCtx) (s : Nat)
    (hn : findMatch ctx.node = none)
    (hoc : ctx.outcome = SplitOutcome.tempSlot s)
    (st : AcmpState) (h : cleanState st) :
    ∃ st2, acmpStepSplit ctx st = .ok st2 ∧ cleanState st2 ∧
      st2.anchoredResult = iloadN (.temp s) := by
  obtain ⟨h1, h2, h3, h4, h5, h6, h7⟩ := h
  refine ⟨{ st with
      anchoredTT := none,
      anchoredResult := iloadN (.temp s),
      uncStores := [istoreN (.temp s) ctx.node],
      mergeNum := some st.nextNum,
      nextNum := st.nextNum + 1 }, ?_, ⟨h1, ?_, h3, ?_, h5, h6, h7⟩, rfl⟩
  · rw [acmpStepSplit, hoc]
    simp [moveNodeToEndOfBlock, gatherResultStores, isResultStoreOf,
      outcomeResultNode, outcomeStores, istoreN]
  · intro t ht
    simp at ht
  · intro t ht
    rw [List.mem_singleton] at ht
    subst ht
    exact istoreN_clean _ _ hn

theorem acmpStepCmpFastpath_inv (ctx : AcmpCtx) (s : Nat)
    (hl : findMatch ctx.node.firstChild = none)
    (hr : findMatch ctx.node.secondChild = none)
    (hsd : ctx.splitDeps = none)
    (st : AcmpState) (h : cleanState st)
    (hanch : st.anchoredResult = iloadN (.temp s)) :
    ∃ st2, acmpStepCmpFastpath ctx st = .ok st2 ∧ cleanState st2 ∧
      st2.anchoredResult = st.anchoredResult := by
  obtain ⟨h1, h2, h3, h4, h5, h6, h7⟩ := h
  refine ⟨{ st with
      storeNode := istoreN (.temp s) (iconstN 1),
      regDepForStoreNode := none,
      exitGlRegDeps := none,
      chain := st.chain ++
        [{ num := st.callNum,
           tts := st.preTTs ++ [istoreN (.temp s) (iconstN 1),
             createif .ifacmpeq ctx.node.firstChild ctx.node.secondChild
               st.mergeNum],
           isExt := st.callExt, exitDeps := none }],
      edges := st.edges ++ [(st.callNum, st.mergeNum.getD 0)],
      callNum := st.nextNum,
      nextNum := st.nextNum + 1,
      callExt := true,
      preTTs := [] }, ?_, ⟨?_, h2, ?_, h4, ?_, rfl, rfl⟩, rfl⟩
  · rw [acmpStepCmpFastpath, hanch, hsd]
    simp [iloadN, istoreN, iconstN, copyBranchGlRegDepsAndSubstitute,
      splitForFastpathStep]
  · intro t ht
    simp at ht
  · intro b hb
    rcases List.mem_append.mp hb with hb2 | hb2
    · exact h3 b hb2
    · rw [List.mem_singleton] at hb2
      subst hb2
      intro t ht
      rcases List.mem_append.mp ht with ht2 | ht2
      · exact h1 t ht2
      · rcases List.mem_cons.mp ht2 with rfl | ht3
        · exact istoreN_clean _ _ rfl
        · rw [List.mem_singleton] at ht3
          subst ht3
          exact createif_clean _ _ _ _ rfl (by simp) hl hr
  · exact istoreN_clean _ _ rfl

theorem acmpStepLhsNull_inv (ctx : AcmpCtx)
    (hl : findMatch ctx.node.firstChild = none)
    (st : AcmpState) (h : cleanState st) :
    ∃ st2, acmpStepLhsNull ctx st = .ok st2 ∧ cleanState st2 ∧
      st2.anchoredResult = st.anchoredResult := by
  obtain ⟨h1, h2, h3, h4, h5, h6, h7⟩ := h
  refine ⟨{ st with
      storeNode := st.storeNode.dupWithFirstChildInt 0,
      regDepForStoreNode := none,
      exitGlRegDeps := none,
      chain := st.chain ++
        [{ num := st.callNum,
           tts := st.preTTs ++ [st.storeNode.dupWithFirstChildInt 0,
             createif .ifacmpeq ctx.node.firstChild (aconstN 0) st.mergeNum],
           isExt := st.callExt, exitDeps := none }],
      edges := st.edges ++ [(st.callNum, st.mergeNum.getD 0)],
      callNum := st.nextNum,
      nextNum := st.nextNum + 1,
      callExt := true,
      preTTs := [] }, ?_, ⟨?_, h2, ?_, h4, ?_, rfl, rfl⟩, rfl⟩
  · rw [acmpStepLhsNull]
    simp [h6, h7, aconstN, copyBranchGlRegDepsAndSubstitute,
      splitForFastpathStep]
  · intro t ht
    simp at ht
  · intro b hb
    rcases List.mem_append.mp hb with hb2 | hb2
    · exact h3 b hb2
    · rw [List.mem_singleton] at hb2
      subst hb2
      intro t ht
      rcases List.mem_append.mp ht with ht2 | ht2
      · exact h1 t ht2
      · rcases List.mem_cons.mp ht2 with rfl | ht3
        · exact dup_clean _ _ h5
        · rw [List.mem_singleton] at ht3
          subst ht3
          exact createif_clean _ _ _ _ rfl (by simp) hl rfl
  · exact dup_clean _ _ h5

theorem acmpStepRhsNull_inv (ctx : AcmpCtx)
    (hr : findMatch ctx.node.secondChild = none)
    (st : AcmpState) (h : cleanState st) :
    ∃ st2, acmpStepRhsNull ctx st = .ok st2 ∧ cleanState st2 ∧
      st2.anchoredResult = st.anchoredResult := by
  obtain ⟨h1, h2, h3, h4, h5, h6, h7⟩ := h
  refine ⟨{ st with
      chain := st.chain ++
        [{ num := st.callNum,
           tts := st.preTTs ++
             [createif .ifacmpeq ctx.node.secondChild (aconstN 0) st.mergeNum],
           isExt := st.callExt, exitDeps := none }],
      edges := st.edges ++ [(st.callNum, st.mergeNum.getD 0)],
      callNum := st.nextNum,
      nextNum := st.nextNum + 1,
      callExt := true,
      preTTs := [] }, ?_, ⟨?_, h2, ?_, h4, h5, h6, h7⟩, rfl⟩
  · rw [acmpStepRhsNull]
    simp [h6, aconstN, copyBranchGlRegDepsAndSubstitute, splitForFastpathStep]
  · intro t ht
    simp at ht
  · intro b hb
    rcases List.mem_append.mp hb with hb2 | hb2
    · exact h3 b hb2
    · rw [List.mem_singleton] at hb2
      subst hb2
      intro t ht
      rcases List.mem_append.mp ht with ht2 | ht2
      · exact h1 t ht2
      · rw [List.mem_singleton] at ht2
        subst ht2
        exact createif_clean _ _ _ _ rfl (by simp) hr rfl

theorem acmpStepLhsVT_inv (ctx : AcmpCtx)
    (hl : findMatch ctx.node.firstChild = none)
    (st : AcmpState) (h : cleanState st) :
    ∃ st2, acmpStepLhsVT ctx st = .ok st2 ∧ cleanState st2 ∧
      st2.anchoredResult = st.anchoredResult := by
  obtain ⟨h1, h2, h3, h4, h5, h6, h7⟩ := h
  refine ⟨{ st with
      chain := st.chain ++
        [{ num := st.callNum,
           tts := st.preTTs ++
             [createif .ificmpeq
               (iandN (loadiN .iloadi .classFlags (loadiN .aloadi .vft
                 ctx.node.firstChild)) (iconstN J9ClassIsValueType))
               st.storeNode.firstChild st.mergeNum],
           isExt := st.callExt, exitDeps := none }],
      edges := st.edges ++ [(st.callNum, st.mergeNum.getD 0)],
      callNum := st.nextNum,
      nextNum := st.nextNum + 1,
      callExt := true,
      preTTs := [] }, ?_, ⟨?_, h2, ?_, h4, h5, h6, h7⟩, rfl⟩
  · rw [acmpStepLhsVT]
    simp [h6, copyBranchGlRegDepsAndSubstitute, splitForFastpathStep]
  · intro t ht
    simp at ht
  · intro b hb
    rcases List.mem_append.mp hb with hb2 | hb2
    · exact h3 b hb2
    · rw [List.mem_singleton] at hb2
      subst hb2
      intro t ht
      rcases List.mem_append.mp ht with ht2 | ht2
      · exact h1 t ht2
      · rw [List.mem_singleton] at ht2
        subst ht2
        exact createif_clean _ _ _ _ rfl (by simp)
          (iandN_clean _ _
            (loadiN_clean _ _ _ rfl (by simp)
              (loadiN_clean _ _ _ rfl (by simp) hl)) rfl)
          (firstChild_clean _ h5)

theorem acmpStepRhsVT_inv (ctx : AcmpCtx)
    (hr : findMatch ctx.node.secondChild = none)
    (st : AcmpState) (h : cleanState st) :
    ∃ st2, acmpStepRhsVT ctx st = .ok st2 ∧ cleanState st2 ∧
      st2.anchoredResult = st.anchoredResult := by
  obtain ⟨h1, h2, h3, h4, h5, h6, h7⟩ := h
  refine ⟨{ st with
      chain := st.chain ++
        [{ num := st.callNum,
           tts := st.preTTs ++
             [createif .ificmpeq
               (iandN (loadiN .iloadi .classFlags (loadiN .aloadi .vft
                 ctx.node.secondChild)) (iconstN J9ClassIsValueType))
               st.storeNode.firstChild st.mergeNum],
           isExt := st.callExt, exitDeps := none }],
      edges := st.edges ++ [(st.callNum, st.mergeNum.getD 0)],
      callNum := st.nextNum,
      nextNum := st.nextNum + 1,
      callExt := true,
      preTTs := [] }, ?_, ⟨?_, h2, ?_, h4, h5, h6, h7⟩, rfl⟩
  · rw [acmpStepRhsVT]
    simp [h6, copyBranchGlRegDepsAndSubstitute, splitForFastpathStep]
  · intro t ht
    simp at ht
  · intro b hb
    rcases List.mem_append.mp hb with hb2 | hb2
    · exact h3 b hb2
    · rw [List.mem_singleton] at hb2
      subst hb2
      intro t ht
      rcases List.mem_append.mp ht with ht2 | ht2
      · exact h1 t ht2
      · rw [List.mem_singleton] at ht2
        subst ht2
        exact createif_clean _ _ _ _ rfl (by simp)
          (iandN_clean _ _
            (loadiN_clean _ _ _ rfl (by simp)
              (loadiN_clean _ _ _ rfl (by simp) hr)) rfl)
          (firstChild_clean _ h5)

/-- Running any suffix of the gated steps from a clean state, under any gate
vector, completes without a fatal abort and keeps the state clean.  The
anchored-result hypothesis records that the split (step 2) has run whenever
the suffix starts beyond it. -/
theorem runGated_cleanState (ctx : AcmpCtx) (s : Nat)
    (hn : findMatch ctx.node = none)
    (hl : findMatch ctx.node.firstChild = none)
    (hr : findMatch ctx.node.secondChild = none)
    (hsd : ctx.splitDeps = none)
    (hoc : ctx.outcome = SplitOutcome.tempSlot s) :
    ∀ (gates : List Bool) (k : Nat) (st : AcmpState),
      cleanState st → (2 ≤ k → st.anchoredResult = iloadN (.temp s)) →
      ∃ st2, runGated gates ((acmpSteps ctx).drop k) st = .ok st2 ∧
        cleanState st2 := by
  intro gates
  induction gates with
  | nil =>
    intro k st h _
    refine ⟨st, ?_, h⟩
    cases (acmpSteps ctx).drop k <;> rfl
  | cons g gs ih =>
    intro k st h hanch
    cases g with
    | false =>
      refine ⟨st, ?_, h⟩
      cases (acmpSteps ctx).drop k with
      | nil => rfl
      | cons f fs => simp [runGated]
    | true =>
      rcases k with _ | _ | _ | _ | _ | _ | _ | k
      · obtain ⟨st2, heq, h2, hres⟩ := acmpStepAnchor_inv ctx hn hl hr st h
        obtain ⟨st3, heq3, h3⟩ := ih 1 st2 h2 (fun hh => absurd hh (by omega))
        refine ⟨st3, ?_, h3⟩
        simp only [acmpSteps, List.drop_succ_cons, List.drop_zero] at heq3 ⊢
        rw [runGated, if_pos rfl]
        simp only [heq]
        exact heq3
      · obtain ⟨st2, heq, h2, hres⟩ := acmpStepSplit_inv ctx s hn hoc st h
        obtain ⟨st3, heq3, h3⟩ := ih 2 st2 h2 (fun _ => hres)
        refine ⟨st3, ?_, h3⟩
        simp only [acmpSteps, List.drop_succ_cons, List.drop_zero] at heq3 ⊢
        rw [runGated, if_pos rfl]
        simp only [heq]
        exact heq3
      · obtain ⟨st2, heq, h2, hres⟩ :=
          acmpStepCmpFastpath_inv ctx s hl hr hsd st h (hanch (by omega))
        obtain ⟨st3, heq3, h3⟩ := ih 3 st2 h2
          (fun _ => by rw [hres]; exact hanch (by omega))
        refine ⟨st3, ?_, h3⟩
        simp only [acmpSteps, List.drop_succ_cons, List.drop_zero] at heq3 ⊢
        rw [runGated, if_pos rfl]
        simp only [heq]
        exact heq3
      · obtain ⟨st2, heq, h2, hres⟩ := acmpStepLhsNull_inv ctx hl st h
        obtain ⟨st3, heq3, h3⟩ := ih 4 st2 h2
          (fun _ => by rw [hres]; exact hanch (by omega))
        refine ⟨st3, ?_, h3⟩
        simp only [acmpSteps, List.drop_succ_cons, List.drop_zero] at heq3 ⊢
        rw [runGated, if_pos rfl]
        simp only [heq]
        exact heq3
      · obtain ⟨st2, heq, h2, hres⟩ := acmpStepRhsNull_inv ctx hr st h
        obtain ⟨st3, heq3, h3⟩ := ih 5 st2 h2
          (fun _ => by rw [hres]; exact hanch (by omega))
        refine ⟨st3, ?_, h3⟩
        simp only [acmpSteps, List.drop_succ_cons, List.drop_zero] at heq3 ⊢
        rw [runGated, if_pos rfl]
        simp only [heq]
        exact heq3
      · obtain ⟨st2, heq, h2, hres⟩ := acmpStepLhsVT_inv ctx hl st h
        obtain ⟨st3, heq3, h3⟩ := ih 6 st2 h2
          (fun _ => by rw [hres]; exact hanch (by omega))
        refine ⟨st3, ?_, h3⟩
        simp only [acmpSteps, List.drop_succ_cons, List.drop_zero] at heq3 ⊢
        rw [runGated, if_pos rfl]
        simp only [heq]
        exact heq3
      · obtain ⟨st2, heq, h2, hres⟩ := acmpStepRhsVT_inv ctx hr st h
        obtain ⟨st3, heq3, h3⟩ := ih 7 st2 h2
          (fun _ => by rw [hres]; exact hanch (by omega))
        refine ⟨st3, ?_, h3⟩
        simp only [acmpSteps, List.drop_succ_cons, List.drop_zero,
          List.drop_nil] at heq3 ⊢
        rw [runGated, if_pos rfl]
        simp only [heq]
        exact heq3
      · refine ⟨st, ?_, h⟩
        have hd : (acmpSteps ctx).drop (k + 7) = [] := by
          simp [acmpSteps, List.drop_succ_cons, List.drop_nil]
        rw [hd]
        rfl

/-- `fastpathAcmpHelper` started from the driver's context — pattern-free
preceding treetops, a pattern-free rewritten call with pattern-free
arguments, no dependencies across the split, a temp-slot outcome — never
aborts and produces only pattern-free trees, whatever the gates answer. -/
theorem fastpathAcmpHelper_cleanState (ctx : AcmpCtx) (s : Nat)
    (hn : findMatch ctx.node = none)
    (hl : findMatch ctx.node.firstChild = none)
    (hr : findMatch ctx.node.secondChild = none)
    (hsd : ctx.splitDeps = none)
    (hoc : ctx.outcome = SplitOutcome.tempSlot s)
    (hpre : ∀ t ∈ ctx.pre, findMatch t = none) :
    ∀ gates, ∃ st2, fastpathAcmpHelper gates ctx = .ok st2 ∧
      cleanState st2 := by
  intro gates
  have hinit : cleanState (initAcmpState ctx) := by
    refine ⟨hpre, ?_, ?_, ?_, rfl, rfl, rfl⟩
    · intro t ht
      simp [initAcmpState] at ht
    · intro b hb
      simp [initAcmpState] at hb
    · intro t ht
      simp [initAcmpState] at ht
  obtain ⟨st2, heq, h2⟩ := runGated_cleanState ctx s hn hl hr hsd hoc gates 0
    (initAcmpState ctx) hinit (fun hh => absurd hh (by omega))
  rw [List.drop_zero] at heq
  exact ⟨st2, heq, h2⟩

/-- When every treetop is pattern-free, the treetop scan only accumulates:
the block contents are unchanged. -/
theorem driveTTs_allClean (env : PassEnv) :
    ∀ (toScan : List Node) (fuel : Nat) (acc : ScanAcc),
      toScan.length ≤ fuel →
      (∀ t ∈ toScan, findMatch t = none) →
      driveTTs env fuel acc toScan =
        .ok { acc with
              scanned := acc.scanned ++ toScan,
              visits := acc.visits + toScan.length } := by
  intro toScan
  induction toScan with
  | nil =>
    intro fuel acc _ _
    cases fuel <;> simp [driveTTs]
  | cons t rest ih =>
    intro fuel acc hfuel hclean
    cases fuel with
    | zero => simp at hfuel
    | succ fuel =>
      have ht : findMatch t = none := hclean t (List.mem_cons_self t rest)
      have hrec := ih fuel
        { acc with visits := acc.visits + 1, scanned := acc.scanned ++ [t] }
        (by simpa using Nat.le_of_succ_le_succ (by simpa using hfuel))
        (fun k hk => hclean k (List.mem_cons_of_mem t hk))
      rw [driveTTs]
      cases henv : env.valueTypesEnabled with
      | false =>
        simp only [henv, Bool.not_false, if_true, hrec]
        obtain ⟨dn, cn, ce, cd, sc, co, vi, ed⟩ := acc
        simp [List.append_assoc]
        omega
      | true =>
        simp only [henv, Bool.not_true, Bool.false_eq_true, if_false, ht, hrec]
        obtain ⟨dn, cn, ce, cd, sc, co, vi, ed⟩ := acc
        simp [List.append_assoc]
        omega

/-- When every treetop of every block is pattern-free, the whole pass leaves
the body unchanged (no block edits, no new edges, no fresh numbers). -/
theorem driveBlocks_allClean (env : PassEnv) :
    ∀ (body : List Block) (counter visits : Nat) (edges : List (Nat × Nat)),
      (∀ b ∈ body, ∀ t ∈ b.tts, findMatch t = none) →
      ∃ v2, driveBlocks env counter visits edges body =
        .ok (body, counter, v2, edges) := by
  intro body
  induction body with
  | nil => intro c v e _; exact ⟨v, rfl⟩
  | cons b rest ih =>
    intro c v e hcl
    obtain ⟨v2, h2⟩ := ih c (v + b.tts.length) e
      (fun bb hb => hcl bb (List.mem_cons_of_mem b hb))
    rw [driveBlocks,
      driveTTs_allClean env b.tts b.tts.length _ le_rfl
        (hcl b (List.mem_cons_self b rest))]
    simp only [h2]
    refine ⟨v2, ?_⟩
    obtain ⟨bn, bt, be, bd⟩ := b
    simp

/-- One driver visit per treetop suffices on `ttAcmpOnly` treetops: whatever
the gates and the fast-path override answer, the scan completes and leaves
only pattern-free blocks and a pattern-free current scan. -/
theorem driveTTs_preserves (env : PassEnv) (henv : env.valueTypesEnabled = true) :
    ∀ (fuel : Nat) (toScan : List Node) (acc : ScanAcc),
      toScan.length ≤ fuel →
      (∀ t ∈ toScan, ttAcmpOnly t = true) →
      (∀ b ∈ acc.done, ∀ t ∈ b.tts, findMatch t = none) →
      (∀ t ∈ acc.scanned, findMatch t = none) →
      ∃ acc2, driveTTs env fuel acc toScan = .ok acc2 ∧
        (∀ b ∈ acc2.done, ∀ t ∈ b.tts, findMatch t = none) ∧
        (∀ t ∈ acc2.scanned, findMatch t = none) := by
  intro fuel
  induction fuel with
  | zero =>
    intro toScan acc hlen hok hd hs
    cases toScan with
    | nil => exact ⟨acc, by simp [driveTTs], hd, hs⟩
    | cons t rest => simp at hlen
  | succ fuel ih =>
    intro toScan acc hlen hok hd hs
    cases toScan with
    | nil => exact ⟨acc, by simp [driveTTs], hd, hs⟩
    | cons t rest =>
      have hlen2 : rest.length ≤ fuel := by
        simp only [List.length_cons] at hlen
        omega
      have hokt := hok t (List.mem_cons_self t rest)
      rw [driveTTs, henv]
      simp only [Bool.not_true, Bool.false_eq_true, if_false]
      rcases ttAcmpOnly_cases t hokt with hcl | ⟨n, hm, hmat, honly, hkids⟩
      · simp only [hcl]
        refine ih rest _ hlen2 (fun k hk => hok k (List.mem_cons_of_mem t hk))
          hd ?_
        intro t2 ht2
        rcases List.mem_append.mp ht2 with h1 | h1
        · exact hs t2 h1
        · rw [List.mem_singleton] at h1
          subst h1
          exact hcl
      · simp only [hm]
        have hn2 : findMatch (n.withSym SymRef.acmpHelper) = none :=
          withSym_clean n hmat hkids
        have ht2cl : findMatch (replaceNode n (n.withSym SymRef.acmpHelper) t)
            = none := replaceNode_onlyMatch_clean n _ hn2 t honly
        have hmore : ∀ t2 ∈ rest.map (replaceNode n (n.withSym SymRef.acmpHelper)),
            ttAcmpOnly t2 = true := by
          intro t2 ht2
          obtain ⟨t0, ht0, rfl⟩ := List.mem_map.mp ht2
          exact ttAcmpOnly_replaceNode_match n _ hmat hn2 t0
            (hok t0 (List.mem_cons_of_mem t ht0))
        cases hdis : env.disableAcmpFastPath with
        | true =>
          simp only [hdis, if_true]
          refine ih _ _ (by simpa using hlen2) hmore hd ?_
          intro t2 ht2
          rcases List.mem_append.mp ht2 with h1 | h1
          · exact hs t2 h1
          · rw [List.mem_singleton] at h1
            subst h1
            exact ht2cl
        | false =>
          simp only [hdis, Bool.false_eq_true, if_false]
          obtain ⟨st, hrun, hp, ha, hc, hu, hst5, hst6, hst7⟩ :=
            fastpathAcmpHelper_cleanState
              { pre := acc.scanned,
                ttNode := replaceNode n (n.withSym SymRef.acmpHelper) t,
                node := n.withSym SymRef.acmpHelper,
                post := rest.map (replaceNode n (n.withSym SymRef.acmpHelper)),
                blockNum := acc.curNum, blockExt := acc.curExt,
                origDeps := acc.curDeps, splitDeps := none,
                outcome := .tempSlot acc.counter, nextNum := acc.counter + 1 }
              acc.counter hn2 (firstChild_clean _ hn2) (secondChild_clean _ hn2)
              rfl rfl hs env.acmpGates
          simp only [hrun]
          cases hmg : st.mergeNum with
          | none =>
            simp only [hmg]
            refine ih _ _ (by simpa using hlen2) hmore hd ?_
            intro t2 ht2
            rcases List.mem_append.mp ht2 with h1 | h1
            · exact hp t2 h1
            · rcases List.mem_cons.mp h1 with rfl | h2
              · exact ht2cl
              · exact ha t2 h2
          | some m =>
            simp only [hmg]
            refine ih _ _ ?_ ?_ ?_ ?_
            · simp only [mergeRest, List.length_map]
              exact hlen2
            · intro t3 ht3
              simp only [mergeRest, outcomeResultNode] at ht3
              obtain ⟨t0, ht0, rfl⟩ := List.mem_map.mp ht3
              refine ttAcmpOnly_replaceNode_clean _ _ hn2 ?_ t0 (hmore t0 ht0)
              rfl
            · intro b hb
              rcases List.mem_append.mp hb with hb1 | hb1
              · rcases List.mem_append.mp hb1 with hb2 | hb2
                · exact hd b hb2
                · exact hc b hb2
              · rw [List.mem_singleton] at hb1
                subst hb1
                intro t3 ht3
                rcases List.mem_append.mp ht3 with ht4 | ht4
                · exact hp t3 ht4
                · rcases List.mem_cons.mp ht4 with rfl | ht5
                  · exact ht2cl
                  · exact hu t3 ht5
            · intro t3 ht3
              rw [List.mem_singleton] at ht3
              subst ht3
              exact treetop1_clean _ rfl

/-- A whole pass over a body of `ttAcmpOnly` treetops produces only
pattern-free blocks, for every gate vector and fast-path override. -/
theorem driveBlocks_preserves (env : PassEnv)
    (henv : env.valueTypesEnabled = true) :
    ∀ (body : List Block) (counter visits : Nat) (edges : List (Nat × Nat)),
      (∀ b ∈ body, ∀ t ∈ b.tts, ttAcmpOnly t = true) →
      ∃ bs c2 v2 es,
        driveBlocks env counter visits edges body = .ok (bs, c2, v2, es) ∧
        ∀ b ∈ bs, ∀ t ∈ b.tts, findMatch t = none := by
  intro body
  induction body with
  | nil => intro c v e _; exact ⟨[], c, v, e, rfl, by simp⟩
  | cons b rest ih =>
    intro c v e hok
    obtain ⟨acc2, hrun, hdone2, hscan2⟩ :=
      driveTTs_preserves env henv b.tts.length b.tts
        { done := [], curNum := b.num, curExt := b.isExt,
          curDeps := b.exitDeps, scanned := [], counter := c,
          visits := v, edges := e }
        le_rfl (hok b (List.mem_cons_self b rest)) (by simp) (by simp)
    obtain ⟨bs, c2, v2, es, hrest, hcl⟩ :=
      ih acc2.counter acc2.visits acc2.edges
        (fun bb hb => hok bb (List.mem_cons_of_mem b hb))
    refine ⟨acc2.done ++
      [{ num := acc2.curNum, tts := acc2.scanned, isExt := acc2.curExt,
         exitDeps := acc2.curDeps }] ++ bs, c2, v2, es, ?_, ?_⟩
    · rw [driveBlocks, hrun]
      simp only [hrest]
    · intro bb hb
      rcases List.mem_append.mp hb with hb1 | hb1
      · rcases List.mem_append.mp hb1 with hb2 | hb2
        · exact hdone2 bb hb2
        · rcases List.mem_singleton.mp hb2 with rfl
          exact hscan2
      · exact hcl bb hb1

/-- With the capability flag off, `performBlocks` returns the body
unchanged. -/
theorem performBlocks_flagOff (env : PassEnv)
    (henv : env.valueTypesEnabled = false) (counter0 : Nat)
    (body : List Block) : performBlocks env counter0 body = .ok body := by
  rw [performBlocks, perform, henv]
  rfl

/-- Claim C8 (amended): for every pass configuration and fresh-number seed,
and every method body in which each treetop either matches neither lowering
pattern or has as its only pattern-matching node one reference-equality
comparison call with pattern-free arguments (the call may be shared and
consumed at any depth of any treetop), running the pass twice in succession
produces the same IR after the second run as after the first: the first run
rewrites the call's symbol to the runtime-helper binding, so the non-helper
pattern-match finds nothing afterwards.  Bodies holding an array-store check
on a possibly-null source are re-lowered on every run (see the
counterexample), so the hypothesis excludes the `ArrayStoreCHK` pattern. -/
theorem claimC8_amended (env : PassEnv) (counter0 : Nat) (body : List Block)
    (hok : ∀ b ∈ body, ∀ t ∈ b.tts, ttAcmpOnly t = true) :
    ∀ out, performBlocks env counter0 body = .ok out →
      ∀ counter1, performBlocks env counter1 out = .ok out := by
  intro out hout counter1
  cases henv : env.valueTypesEnabled with
  | false =>
    rw [performBlocks_flagOff env henv, Except.ok.injEq] at hout
    subst hout
    exact performBlocks_flagOff env henv counter1 body
  | true =>
    obtain ⟨bs, c2, v2, es, hdrive, hclean⟩ :=
      driveBlocks_preserves env henv body counter0 0 [] hok
    rw [performBlocks, perform, henv] at hout
    simp only [Bool.not_true, Bool.false_eq_true, if_false, hdrive,
      Except.ok.injEq] at hout
    rcases hout with rfl
    obtain ⟨v3, h3⟩ := driveBlocks_allClean env bs counter1 0 [] hclean
    rw [performBlocks, perform, henv]
    simp only [Bool.not_true, Bool.false_eq_true, if_false, h3]

/-- A treetop consuming the shared equality call deeper in its tree. -/
def exConsume : Node := treetop1 (iandN exCall (iconstN 7))

/-- A one-block method body holding the equality comparison and a second
treetop consuming the shared call node. -/
def exBodyAcmp : List Block :=
  [{ num := 1, tts := [treetop1 exCall, exConsume], isExt := false,
     exitDeps := none }]

/-- The body after one run of the pass over `exBodyAcmp`: the fast-path
chain, the call block, and the merge block holding the re-anchored result
load and the consumer rewritten to read the temp slot. -/
def exAcmpOnce : List Block :=
  [{ num := 1,
     tts := [treetop1 exLhs, treetop1 exRhs, istoreN (.temp 100) (iconstN 1),
       createif .ifacmpeq exLhs exRhs (some 101)],
     isExt := false, exitDeps := none },
   { num := 102,
     tts := [istoreN (.temp 100) (iconstN 0),
       createif .ifacmpeq exLhs (aconstN 0) (some 101)],
     isExt := true, exitDeps := none },
   { num := 103,
     tts := [createif .ifacmpeq exRhs (aconstN 0) (some 101)],
     isExt := true, exitDeps := none },
   { num := 104,
     tts := [createif .ificmpeq
       (iandN (loadiN .iloadi .classFlags (loadiN .aloadi .vft exLhs))
         (iconstN J9ClassIsValueType))
       (iconstN 0) (some 101)],
     isExt := true, exitDeps := none },
   { num := 105,
     tts := [createif .ificmpeq
       (iandN (loadiN .iloadi .classFlags (loadiN .aloadi .vft exRhs))
         (iconstN J9ClassIsValueType))
       (iconstN 0) (some 101)],
     isExt := true, exitDeps := none },
   { num := 106,
     tts := [treetop1 exCallHelper, istoreN (.temp 100) exCallHelper],
     isExt := true, exitDeps := none },
   { num := 101,
     tts := [treetop1 (iloadN (.temp 100)),
       treetop1 (iandN (iloadN (.temp 100)) (iconstN 7))],
     isExt := false, exitDeps := none }]

/-- Witness for claim C8 at a concrete body whose second treetop consumes
the shared call: the once-lowered body is a fixed point of the pass. -/
theorem claimC8_witness :
    (∀ b ∈ exBodyAcmp, ∀ t ∈ b.tts, ttAcmpOnly t = true) ∧
    performBlocks exEnvOn 100 exBodyAcmp = .ok exAcmpOnce ∧
    performBlocks exEnvOn 200 exAcmpOnce = .ok exAcmpOnce := by
  have h := claimC8_amended exEnvOn 100 exBodyAcmp
    (of_decide_eq_true rfl) exAcmpOnce rfl 200
  exact ⟨of_decide_eq_true rfl, rfl, h⟩

end TL
